import Mathlib

/-!
Verification development for the RFP evaluation pipeline
(line-item parsing, specification extraction, catalog matching,
pricing with voltage-class test selection, and composite scoring).

Texts are modelled as `List Char` (ASCII fragment of Python `str`).
Python regular-expression searches are modelled by bespoke scanners that
reproduce the leftmost-match / greedy semantics of each concrete pattern,
or by a small regular-expression datatype `Rx` whose repetition nodes
range over character classes (which covers every pattern in the source).
Floating point numbers are modelled by `ℚ`.
-/

namespace RfpSystem

/-- Python `\s` whitespace class (ASCII part). -/
def isWSChar (c : Char) : Bool :=
  c == ' ' || c == '\t' || c == '\n' || c == '\r' || c == '\x0b' || c == '\x0c'

/-- Python `\w` word-character class (ASCII part). -/
def isWordChar (c : Char) : Bool :=
  c.isAlphanum || c == '_'

/-- ASCII lowering of a text, modelling `str.lower()`. -/
def lowerL (l : List Char) : List Char := l.map Char.toLower

/-- Model of Python `str.strip()`: removes leading and trailing whitespace. -/
def stripWS (l : List Char) : List Char :=
  ((l.dropWhile isWSChar).reverse.dropWhile isWSChar).reverse

/-- The per-strategy item clean-up from `parse_scope_into_line_items`:
`[p.strip() for p in parts if p.strip() and len(p.strip()) >= 10]`. -/
def cleanItems (parts : List (List Char)) : List (List Char) :=
  (parts.map stripWS).filter (fun q => !q.isEmpty && decide (10 ≤ q.length))

/-!
A small regular-expression datatype.  Every repetition (`*`, `+`) in the
source's patterns ranges over a single character class, so `rep` over a
character class suffices and keeps the matcher structurally terminating.
`consume` returns the list of possible consumed lengths in the engine's
backtracking preference order (greedy repetition, left-biased alternation),
mirroring Python's `re` semantics for these patterns.
-/

inductive Rx where
  | eps : Rx
  | cls : (Char → Bool) → Rx
  | seq : Rx → Rx → Rx
  | alt : Rx → Rx → Rx
  | rep : (Char → Bool) → Rx

def spanLen (p : Char → Bool) (s : List Char) : Nat := (s.takeWhile p).length

def Rx.consume : Rx → List Char → List Nat
  | .eps, _ => [0]
  | .cls _, [] => []
  | .cls p, c :: _ => if p c then [1] else []
  | .seq a b, s =>
      (a.consume s).flatMap (fun i => (b.consume (s.drop i)).map (i + ·))
  | .alt a b, s => a.consume s ++ b.consume s
  | .rep p, s => (List.range (spanLen p s + 1)).reverse

/-- Does the expression match a prefix of `s`? -/
def rxHit (r : Rx) (s : List Char) : Bool := !(r.consume s).isEmpty

/-- Model of `re.search`: does the expression match anywhere in `s`? -/
def rxSearch (r : Rx) : List Char → Bool
  | [] => rxHit r []
  | c :: t => rxHit r (c :: t) || rxSearch r t

def failRx : Rx := Rx.cls (fun _ => false)

def catR (l : List Rx) : Rx := l.foldr Rx.seq Rx.eps

def altR (l : List Rx) : Rx := l.foldr Rx.alt failRx

def litR (w : String) : Rx := catR (w.toList.map (fun c => Rx.cls (· == c)))

def optR (r : Rx) : Rx := Rx.alt r Rx.eps

/-- Pattern `\s*`. -/
def wsStar : Rx := Rx.rep isWSChar

/-- Pattern `\s+`. -/
def wsPlus : Rx := Rx.seq (Rx.cls isWSChar) wsStar

/-!  Number-parsing helpers shared by the bespoke regex scanners. -/

def digitsOf (s : List Char) : List Char := s.takeWhile Char.isDigit

def restAfterDigits (s : List Char) : List Char := s.dropWhile Char.isDigit

def natOfDigits (d : List Char) : ℕ :=
  d.foldl (fun a c => a * 10 + (c.toNat - '0'.toNat)) 0

/-- Value of `d1 . d2` as a rational (`d2` may be empty). -/
def ratOfParts (d1 d2 : List Char) : ℚ :=
  (natOfDigits d1 : ℚ) + (natOfDigits d2 : ℚ) / (10 : ℚ) ^ d2.length

def spanWSLen (s : List Char) : Nat := (s.takeWhile isWSChar).length

def dropWSAll (s : List Char) : List Char := s.dropWhile isWSChar

/-- Apply a position scanner at every start position, leftmost first,
modelling `re.search`'s scan (the final position on the empty suffix
included). -/
def findMap (f : List Char → Option α) : List Char → Option α
  | [] => f []
  | c :: t =>
    match f (c :: t) with
    | some r => some r
    | none => findMap f t

/-- Python word-boundary test after a consumed word character: the next
character must not be a word character (or the string ends). -/
def boundaryOk (s : List Char) : Bool :=
  match s with
  | [] => true
  | c :: _ => !isWordChar c

/-- Boolean substring test, modelling Python's `in` on strings. -/
def infixOfB (needle : List Char) : List Char → Bool
  | [] => needle.isEmpty
  | c :: t => needle.isPrefixOf (c :: t) || infixOfB needle t

/-!
Pricing agent (`agents/pricing_agent.py`).
-/

/-- Voltage class thresholds (kV): `LV_MAX_KV = 1.1`. -/
def LV_MAX_KV : ℚ := 11 / 10

/-- Voltage class thresholds (kV): `MV_MAX_KV = 6.6`. -/
def MV_MAX_KV : ℚ := 33 / 5

/-- Scanner for `(\d+(?:\.\d+)?)\s*kv` at one position, returning the
captured numeric value.  Greedy digit runs are maximal (a shortened run
leaves a digit, which none of the continuations accept); a fractional part
that is not followed by `\s*kv` is retried without the fraction, as the
backtracking engine does. -/
def kvUnitOk (s : List Char) : Bool := "kv".toList.isPrefixOf (dropWSAll s)

def kvAt (s : List Char) : Option ℚ :=
  let d1 := digitsOf s
  if d1.isEmpty then none
  else
    let r1 := restAfterDigits s
    match r1 with
    | '.' :: r2 =>
      let d2 := digitsOf r2
      if d2.isEmpty then
        if kvUnitOk r1 then some (ratOfParts d1 []) else none
      else if kvUnitOk (restAfterDigits r2) then some (ratOfParts d1 d2)
      else if kvUnitOk r1 then some (ratOfParts d1 []) else none
    | _ => if kvUnitOk r1 then some (ratOfParts d1 []) else none

/-- Scanner for the bare-volt fallback `(\d+)\s*v\b`. -/
def bareVAt (s : List Char) : Option ℚ :=
  let d1 := digitsOf s
  if d1.isEmpty then none
  else
    match dropWSAll (restAfterDigits s) with
    | 'v' :: r2 => if boundaryOk r2 then some ((natOfDigits d1 : ℚ)) else none
    | _ => none

def classifyKV (kv : ℚ) : String :=
  if kv ≤ LV_MAX_KV then "LV" else if kv ≤ MV_MAX_KV then "MV" else "HV"

/-- Source `_voltage_class` from the pricing agent. -/
def voltage_class (s : List Char) : String :=
  if s.isEmpty then "LV"
  else
    let low := lowerL s
    match findMap kvAt low with
    | some kv => classifyKV kv
    | none =>
      match findMap bareVAt low with
      | some v => classifyKV (v / 1000)
      | none => "LV"

/-- The claim's reading of the voltage parse: the kV value of the first
kV match, else the first bare-volt match divided by 1000. -/
def parsedVoltageKV (s : List Char) : Option ℚ :=
  match findMap kvAt (lowerL s) with
  | some q => some q
  | none => (findMap bareVAt (lowerL s)).map (fun v => v / 1000)

/-- The claim's closed-form classification: `LV` when the parsed value is
at most 1.1 kV, `MV` up to 6.6 kV, `HV` above; empty or unparseable
ratings classify as `LV`. -/
def voltageClassClaim (s : List Char) : String :=
  match parsedVoltageKV s with
  | none => "LV"
  | some q => if q ≤ 11 / 10 then "LV" else if q ≤ 33 / 5 then "MV" else "HV"

/-- Unit alternatives `(?:m\b|meters?|metres?)` tried in alternation order. -/
def qtyUnitLabelled (s : List Char) : Bool :=
  match s with
  | 'm' :: r =>
    boundaryOk r || "eter".toList.isPrefixOf r || "etre".toList.isPrefixOf r
  | _ => false

def qtyTok (s : List Char) : List Char :=
  s.takeWhile (fun c => c.isDigit || c == ',')

/-- Scanner for
`(?:quantity|qty)\s*[:\-]?\s*([\d,]+)\s*(?:m\b|meters?|metres?)`
at one position, returning the captured token. -/
def qtyLabelAt (s : List Char) : Option (List Char) :=
  let rest0 : Option (List Char) :=
    if "quantity".toList.isPrefixOf s then some (s.drop 8)
    else if "qty".toList.isPrefixOf s then some (s.drop 3)
    else none
  match rest0 with
  | none => none
  | some r0 =>
    let r1 := dropWSAll r0
    let r2 :=
      match r1 with
      | ':' :: r => r
      | '-' :: r => r
      | _ => r1
    let r3 := dropWSAll r2
    let tok := qtyTok r3
    if tok.isEmpty then none
    else if qtyUnitLabelled (dropWSAll (r3.drop tok.length)) then some tok
    else none

/-- Scanner for the fallback `([\d,]+)\s*(?:meters?|metres?)`. -/
def qtyBareAt (s : List Char) : Option (List Char) :=
  let tok := qtyTok s
  if tok.isEmpty then none
  else
    let r := dropWSAll (s.drop tok.length)
    if "meter".toList.isPrefixOf r || "metre".toList.isPrefixOf r then some tok
    else none

/-- Conversion `int(tok.replace(",", ""))`: the value of the token's
digits, or `none` when the token has no digits at all — a comma-only
`[\d,]+` match, on which the source raises `ValueError` (`int` of an
empty string). -/
def commaTokVal (tok : List Char) : Option ℤ :=
  let ds := tok.filter Char.isDigit
  if ds.isEmpty then none else some ((natOfDigits ds : ℤ))

/-- Source `extract_rfp_quantity` from the pricing agent.
`Except.error ()` models the reachable `ValueError` (a matched token of
commas only); `Except.ok none` is the documented "no quantity found". -/
def extract_rfp_quantity (t : List Char) : Except Unit (Option ℤ) :=
  let low := lowerL t
  match findMap qtyLabelAt low with
  | some tok =>
    match commaTokVal tok with
    | some v => .ok (some v)
    | none => .error ()
  | none =>
    match findMap qtyBareAt low with
    | some tok =>
      match commaTokVal tok with
      | some v => .ok (some v)
      | none => .error ()
    | none => .ok none

/-- Line 293 of the pricing agent:
`order_qty = max(rfp_qty or 0, moq)` (Python's `or 0` coincides with
`Option.getD 0` because `Some 0 or 0` is also `0`).  The line executes
only when `extract_rfp_quantity` returned rather than raised; on the
error path the agent propagates the exception, modelled as `none`. -/
def resolveOrderQty (t : List Char) (moq : ℤ) : Option ℤ :=
  match extract_rfp_quantity t with
  | .ok q => some (max (q.getD 0) moq)
  | .error _ => none

/-- One row of the Volume Discounts sheet. -/
structure DiscountRow where
  product_id : String
  minQty : ℤ
  maxQty : ℤ
  unitPrice : ℚ
deriving DecidableEq, Repr

/-- Value of `rows["Min_Quantity_Meters"].max()` over a non-empty frame. -/
def maxMinQty (rows : List DiscountRow) : ℤ :=
  match rows.map (fun r => r.minQty) with
  | [] => 0
  | x :: xs => xs.foldl max x

/-- Source `get_discounted_unit_price` from the pricing agent. -/
def get_discounted_unit_price (pid : String) (q : ℤ)
    (db : Option (List DiscountRow)) : Option ℚ :=
  match db with
  | none => none
  | some table =>
    let rows := table.filter (fun r => r.product_id == pid)
    if rows.isEmpty then none
    else
      let contained :=
        rows.filter (fun r => decide (r.minQty ≤ q) && decide (q ≤ r.maxQty))
      let matched :=
        if contained.isEmpty then
          rows.filter (fun r => r.minQty == maxMinQty rows)
        else contained
      match matched with
      | [] => none
      | r :: _ => some r.unitPrice

/-- Constant `UNIVERSAL_TESTS`. -/
def UNIVERSAL_TESTS : List String := ["IRT-10M", "DOC-01", "ET-01", "MI-01", "TT-01"]

/-- Table `VOLTAGE_CLASS_TESTS` looked up with default `[]`. -/
def VOLTAGE_CLASS_TESTS (c : String) : List String :=
  if c = "LV" then ["RT-01", "HVWT-1.1KV", "ET-01"]
  else if c = "MV" then ["HVWT-3.5KV", "AT-01", "ET-02"]
  else if c = "HV" then ["HVWT-11KV", "AT-02", "ET-02"]
  else []

/-!  `TEST_KEYWORD_MAP` patterns as `Rx` values (text is lowercased before
matching, which for ASCII equals `re.IGNORECASE`). -/

def kwTensile : Rx := catR [litR "tensile", wsStar, litR "strength"]
def kwMechInstall : Rx := catR [litR "mechanical", wsStar, litR "installation"]
def kwMechInspect : Rx := catR [litR "mechanical", wsStar, litR "inspection"]
def kwDocumentation : Rx := litR "documentation"
def kwCertif : Rx := catR [litR "certif", Rx.alt (litR "icate") (litR "ication")]
def kwRoutine : Rx :=
  catR [litR "routine", wsStar, altR [litR "test", litR "testing", litR "insulation"]]
def kwAcceptance : Rx :=
  catR [litR "acceptance", wsStar, Rx.alt (litR "test") (litR "testing")]
def kwType : Rx := catR [litR "type", wsStar, Rx.alt (litR "test") (litR "testing")]
def kwElectrical : Rx :=
  catR [litR "electrical", wsStar, Rx.alt (litR "test") (litR "testing")]

/-- The keyword-overlay step of `extract_required_tests`, iterating
`TEST_KEYWORD_MAP` in dictionary order on the lowercased text. -/
def keywordCodes (low : List Char) : List String :=
  (if rxSearch kwTensile low then ["TST-360", "TST-350"] else []) ++
  (if rxSearch kwMechInstall low then ["MII-01"] else []) ++
  (if rxSearch kwMechInspect low then ["MI-01"] else []) ++
  (if rxSearch kwDocumentation low then ["DOC-01"] else []) ++
  (if rxSearch kwCertif low then ["DOC-01"] else []) ++
  (if rxSearch kwRoutine low then ["RT-01"] else []) ++
  (if rxSearch kwAcceptance low then ["AT-01", "AT-02"] else []) ++
  (if rxSearch kwType low then ["TT-01"] else []) ++
  (if rxSearch kwElectrical low then ["ET-01", "ET-02"] else [])

/-- Source `extract_required_tests`: universal tests, voltage-class tests, then
keyword overlay; the set is returned as a sorted deduplicated list
(`sorted(list(found_codes))`). -/
def extract_required_tests (text vr : List Char) : List String :=
  let base := UNIVERSAL_TESTS ++ VOLTAGE_CLASS_TESTS (voltage_class vr)
  let kws := if (stripWS text).isEmpty then [] else keywordCodes (lowerL text)
  ((base ++ kws).dedup).mergeSort (fun a b => decide (a ≤ b))

/-!
Technical agent (`agents/technical_agent.py`), section 1: the
scope-of-supply parser `parse_scope_into_line_items`.
-/

/-- Length of the list-marker part of the structured separator
`(?:\(\d+\)\s+|\d+[\.\)]\s+|[a-zA-Z][\.\)]\s+|[•\-\*]\s+)`, alternatives
tried in order (their first characters are disjoint). -/
def markerLen (s : List Char) : Option Nat :=
  match s with
  | '(' :: r =>
    let d := (digitsOf r).length
    if d = 0 then none
    else
      match r.drop d with
      | ')' :: r2 =>
        let w := spanWSLen r2
        if w = 0 then none else some (1 + d + 1 + w)
      | _ => none
  | _ =>
    let d := (digitsOf s).length
    if d ≠ 0 then
      match s.drop d with
      | c :: r2 =>
        if c == '.' || c == ')' then
          let w := spanWSLen r2
          if w = 0 then none else some (d + 1 + w)
        else none
      | _ => none
    else
      match s with
      | c :: r =>
        if c.isAlpha then
          match r with
          | p :: r2 =>
            if p == '.' || p == ')' then
              let w := spanWSLen r2
              if w = 0 then none else some (2 + w)
            else none
          | _ => none
        else if c == '•' || c == '-' || c == '*' then
          let w := spanWSLen r
          if w = 0 then none else some (1 + w)
        else none
      | _ => none

/-- Length of `\s*` + marker at a qualifying position.  The leading
`(?:^|\n)` of the structured separator is handled by the caller; when it
matches the consuming `\n` alternative, that newline is absorbed by the
maximal `\s*` run here, which gives the same end position. -/
def sepLenAt (s : List Char) : Option Nat :=
  let w := spanWSLen s
  (markerLen (s.drop w)).map (w + ·)

/-- Fuel-driven scan used by `re.split` on the structured pattern:
a separator may start at the beginning of the text, after a newline, or at
a newline. -/
def structGo : Nat → List Char → Option Char → List Char → List (List Char)
  | 0, rest, _, acc => [acc.reverse ++ rest]
  | _ + 1, [], _, acc => [acc.reverse]
  | fuel + 1, c :: cs, prev, acc =>
    let qual := prev.isNone || prev == some '\n' || c == '\n'
    match (if qual then sepLenAt (c :: cs) else none) with
    | some n =>
      acc.reverse ::
        structGo fuel ((c :: cs).drop n) (((c :: cs).drop (n - 1)).head?) []
    | none => structGo fuel cs (some c) (c :: acc)

/-- Model of `re.split` on the structured list-marker pattern.  The source's
strategy-1 guard `re.search(structured, text, re.MULTILINE)` succeeds
exactly when this split produces at least two parts. -/
def splitStructured (s : List Char) : List (List Char) :=
  structGo (s.length + 1) s none []

/-- Model of `re.split(r';\s*', text)`: equivalent to splitting on `;` and then
removing leading whitespace of every later part (the `\s*` of the
separator never crosses another `;`). -/
def splitSemicolon (s : List Char) : List (List Char) :=
  match s.splitOn ';' with
  | [] => []
  | h :: t => h :: t.map (fun p => p.dropWhile isWSChar)

/-- Model of `re.split(r'\n+', text)`: split by splitting on every newline;
the runs-of-newlines difference only inserts empty parts, which the
item filter removes, so the resulting items coincide. -/
def splitNewlines (s : List Char) : List (List Char) := s.splitOn '\n'

/-!  `PRODUCT_START_KEYWORDS` as `Rx` values (lowercased). -/

def wsOrDash : Rx := Rx.cls (fun c => isWSChar c || c == '-')

def phraseR (ws2 : List String) : Rx :=
  catR ((ws2.map litR).intersperse wsPlus)

def PRODUCT_START_KEYWORDS : List Rx :=
  [ phraseR ["mv", "power", "cable"]
  , catR [litR "lt", wsPlus, optR (catR [litR "power", wsPlus]), litR "cable"]
  , catR [litR "ht", wsPlus, optR (catR [litR "power", wsPlus]), litR "cable"]
  , catR [litR "hv", wsPlus, optR (catR [litR "power", wsPlus]), litR "cable"]
  , catR [litR "ehv", wsPlus, optR (catR [litR "power", wsPlus]), litR "cable"]
  , phraseR ["control", "cable"]
  , phraseR ["instrumentation", "cable"]
  , phraseR ["flexible", "cable"]
  , phraseR ["solar", "cable"]
  , catR [litR "aerial", wsPlus,
      optR (catR [litR "bunch", optR (litR "ed"), wsPlus]), litR "cable"]
  , catR [litR "fire", wsOrDash,
      altR [litR "resistant", litR "retardant", litR "proof"], wsPlus, litR "cable"]
  , catR [litR "armo", optR (litR "u"), litR "red", wsPlus, litR "cable"]
  , catR [litR "unarmo", optR (litR "u"), litR "red", wsPlus, litR "cable"]
  , phraseR ["single", "core", "cable"]
  , catR [litR "multi", optR (catR [wsOrDash, litR "core"]), wsPlus, litR "cable"]
  , phraseR ["power", "cable"]
  , phraseR ["earthing", "cable"]
  , phraseR ["screened", "cable"]
  , catR [altR [litR "xlpe", litR "pvc", litR "epr"], wsOrDash,
      litR "insulated", wsPlus, litR "cable"]
  , catR [altR [litR "1.1", litR "0.6", litR "3.5", litR "6.6", litR "11",
      litR "22", litR "33", litR "66", litR "132"], wsStar, litR "kv",
      wsPlus, litR "cable"]
  , phraseR ["cable", "tray"]
  , phraseR ["cable", "duct"]
  , litR "conduit"
  , phraseR ["junction", "box"]
  , phraseR ["distribution", "panel"]
  , litR "switchgear"
  , litR "transformer"
  , catR [litR "bus", wsStar, Rx.alt (litR "bar") (litR "duct")]
  ]

def productRx : Rx := altR PRODUCT_START_KEYWORDS

/-- Look-behind class `[a-zA-Z0-9°²\s]` of `_INLINE_SPLIT_RE`. -/
def inlineBehindOk (c : Char) : Bool :=
  c.isAlpha || c.isDigit || c == '°' || c == '²' || isWSChar c

/-- Look-ahead `(?=\s*(?:PRODUCT_PATTERN))` (case-insensitive). -/
def inlineAheadOk (rest : List Char) : Bool :=
  rxHit productRx (lowerL (dropWSAll rest))

/-- Model of `re.split` on the zero-width `_INLINE_SPLIT_RE`: the text is cut at
every position whose previous character is in the look-behind class and
from which the look-ahead matches. -/
def inlineGo : List Char → Option Char → List Char → List (List Char)
  | [], _, acc => [acc.reverse]
  | c :: cs, prev, acc =>
    match prev with
    | some p =>
      if inlineBehindOk p && inlineAheadOk (c :: cs) then
        acc.reverse :: inlineGo cs (some c) [c]
      else inlineGo cs (some c) (c :: acc)
    | none => inlineGo cs (some c) (c :: acc)

def splitInline (s : List Char) : List (List Char) := inlineGo s none []

/-- Strategy 4 then fallback (strategy 5). -/
def strat4 (text : List Char) : List (List Char) :=
  let items := cleanItems (splitInline text)
  if 1 < items.length then items else [text]

/-- Strategy 3: newline-separated. -/
def strat3 (text : List Char) : List (List Char) :=
  let items := cleanItems (splitNewlines text)
  if text.contains '\n' ∧ 1 < items.length then items else strat4 text

/-- Strategy 2: semicolon-delimited (at least two semicolons). -/
def strat2 (text : List Char) : List (List Char) :=
  let items := cleanItems (splitSemicolon text)
  if 2 ≤ text.count ';' ∧ 1 < items.length then items else strat3 text

/-- Strategy 1: structured list markers. -/
def strat1 (text : List Char) : List (List Char) :=
  let items := cleanItems (splitStructured text)
  if 2 ≤ (splitStructured text).length ∧ 1 < items.length then items
  else strat2 text

/-- Source `parse_scope_into_line_items`. -/
def parse_scope_into_line_items (s : List Char) : List (List Char) :=
  if (stripWS s).isEmpty then [] else strat1 (stripWS s)

/-!
Technical agent, section 2: the specification extractor
`extract_rfp_specs`.
-/

/-- The `\s*(?:kv|v\b)` tail of the voltage pattern, returning its span. -/
def voltUnitAt (r : List Char) : Option (List Char) :=
  let w := r.takeWhile isWSChar
  let r2 := r.drop w.length
  if "kv".toList.isPrefixOf r2 then some (w ++ ['k', 'v'])
  else
    match r2 with
    | 'v' :: r3 => if boundaryOk r3 then some (w ++ ['v']) else none
    | _ => none

/-- Scanner for `(\d+(?:\.\d+)?)\s*(?:kv|v\b)` returning the whole match
(group 0), which the source then strips. -/
def voltSpecAt (s : List Char) : Option (List Char) :=
  let d1 := digitsOf s
  if d1.isEmpty then none
  else
    let r1 := restAfterDigits s
    match r1 with
    | '.' :: r2 =>
      let d2 := digitsOf r2
      if d2.isEmpty then (voltUnitAt r1).map (fun u => d1 ++ u)
      else
        match voltUnitAt (restAfterDigits r2) with
        | some u => some (d1 ++ '.' :: d2 ++ u)
        | none => (voltUnitAt r1).map (fun u => d1 ++ u)
    | _ => (voltUnitAt r1).map (fun u => d1 ++ u)

/-- Scanner for `(\d+)\s*(?:core|cores|\bc\b)`; the bare `c` alternative
needs a word boundary on both sides, so it requires at least one
whitespace character after the digits. -/
def coresAt (s : List Char) : Option (List Char) :=
  let d1 := digitsOf s
  if d1.isEmpty then none
  else
    let r1 := restAfterDigits s
    let w := spanWSLen r1
    let r2 := r1.drop w
    if "core".toList.isPrefixOf r2 then some d1
    else
      match r2 with
      | 'c' :: r3 => if w ≠ 0 && boundaryOk r3 then some d1 else none
      | _ => none

/-- Optional label `(?:conductor\s*size\s*[:\-]?\s*)?` of the size
pattern; returns the rest after the label when it matches here. -/
def sizePrefixAt (s : List Char) : Option (List Char) :=
  if "conductor".toList.isPrefixOf s then
    let r1 := dropWSAll (s.drop 9)
    if "size".toList.isPrefixOf r1 then
      let r2 := dropWSAll (r1.drop 4)
      let r3 :=
        match r2 with
        | ':' :: r => r
        | '-' :: r => r
        | _ => r2
      some (dropWSAll r3)
    else none
  else none

/-- The `\s*(?:mm[²2]|sq\.?\s*mm)` tail of the size pattern. -/
def sizeSuffixOk (r : List Char) : Bool :=
  let r2 := dropWSAll r
  (match r2 with
   | 'm' :: 'm' :: c :: _ => c == '²' || c == '2'
   | _ => false) ||
  (if "sq".toList.isPrefixOf r2 then
     let r3 := r2.drop 2
     let r4 :=
       match r3 with
       | '.' :: r => r
       | _ => r3
     "mm".toList.isPrefixOf (dropWSAll r4)
   else false)

/-- The `(\d+(?:\.\d+)?)` + size-suffix part, returning group 1. -/
def sizeNumAt (s : List Char) : Option (List Char) :=
  let d1 := digitsOf s
  if d1.isEmpty then none
  else
    let r1 := restAfterDigits s
    match r1 with
    | '.' :: r2 =>
      let d2 := digitsOf r2
      if d2.isEmpty then if sizeSuffixOk r1 then some d1 else none
      else if sizeSuffixOk (restAfterDigits r2) then some (d1 ++ '.' :: d2)
      else if sizeSuffixOk r1 then some d1 else none
    | _ => if sizeSuffixOk r1 then some d1 else none

/-- Scanner for the complete conductor-size pattern at one position; the
optional label is tried first, as the regex engine does. -/
def sizeAt (s : List Char) : Option (List Char) :=
  match sizePrefixAt s with
  | some r =>
    match sizeNumAt r with
    | some g => some g
    | none => sizeNumAt s
  | none => sizeNumAt s

/-- Scanner for `(\d+)\s*°?\s*c\b`. -/
def tempAt (s : List Char) : Option (List Char) :=
  let d1 := digitsOf s
  if d1.isEmpty then none
  else
    let r1 := dropWSAll (restAfterDigits s)
    let r2 :=
      match r1 with
      | '°' :: r => dropWSAll r
      | _ => r1
    match r2 with
    | 'c' :: r3 => if boundaryOk r3 then some d1 else none
    | _ => none

def containsAny (low : List Char) (ws : List String) : Bool :=
  ws.any (fun w => infixOfB w.toList low)

def STANDARD_CODES : List String :=
  ["is 1554", "is 7098", "iec 60502", "iec 60228", "is 694", "iec 60227"]

/-- The canonical attribute set extracted from one line item.  A `none`
field models a key mapped to Python `None`. -/
structure AttributeSet where
  voltage : Option (List Char)
  conductor_material : Option (List Char)
  insulation_type : Option (List Char)
  cores : Option (List Char)
  armoring : Option (List Char)
  conductor_size_mm2 : Option (List Char)
  temperature_rating_c : Option (List Char)
  standards : Option (List Char)
deriving DecidableEq, Repr

/-- Source `extract_rfp_specs` from the technical agent. -/
def extract_rfp_specs (t : List Char) : AttributeSet :=
  let text := lowerL t
  { voltage := (findMap voltSpecAt text).map stripWS
  , conductor_material :=
      if containsAny text ["copper", " cu ", "cu-", "(cu)", "material: copper"] then
        some "copper".toList
      else if containsAny text ["aluminum", "aluminium", " al ", "al-", "(al)",
          "material: aluminum", "material: aluminium"] then
        some "aluminum".toList
      else none
  , insulation_type :=
      if containsAny text ["xlpe", "cross linked", "cross-linked"] then
        some "xlpe".toList
      else if containsAny text ["pvc", "polyvinyl"] then some "pvc".toList
      else if containsAny text ["epr", "ethylene propylene"] then some "epr".toList
      else none
  , cores := findMap coresAt text
  , armoring :=
      if containsAny text ["armoured", "armored", "swa", "steel wire", "steel tape"] then
        some "armoured".toList
      else if containsAny text ["unarmoured", "unarmored"] then
        some "unarmoured".toList
      else none
  , conductor_size_mm2 := findMap sizeAt text
  , temperature_rating_c :=
      match findMap tempAt text with
      | some d => if 50 ≤ natOfDigits d then some d else none
      | none => none
  , standards :=
      let found := STANDARD_CODES.filter (fun std => infixOfB std.toList text)
      if found.isEmpty then none
      else some (List.intercalate ", ".toList
        (found.map (fun std => std.toList.map Char.toUpper)))
  }

/-!
Technical agent, section 3: the spec matcher (`_match_spec`,
`compute_spec_match`).
-/

inductive SpecKey where
  | voltage
  | conductor_material
  | insulation_type
  | cores
  | armoring
  | conductor_size_mm2
  | temperature_rating_c
  | standards
deriving DecidableEq, Repr

/-- Iteration order of `SPEC_TO_DB_COL`. -/
def SPEC_KEYS : List SpecKey :=
  [.voltage, .conductor_material, .insulation_type, .cores, .armoring,
   .conductor_size_mm2, .temperature_rating_c, .standards]

/-- Table `SPEC_WEIGHTS` (default weight 1 for unknown keys folded in). -/
def SPEC_WEIGHTS : SpecKey → ℚ
  | .conductor_size_mm2 => 3
  | _ => 1

def AttributeSet.get (a : AttributeSet) : SpecKey → Option (List Char)
  | .voltage => a.voltage
  | .conductor_material => a.conductor_material
  | .insulation_type => a.insulation_type
  | .cores => a.cores
  | .armoring => a.armoring
  | .conductor_size_mm2 => a.conductor_size_mm2
  | .temperature_rating_c => a.temperature_rating_c
  | .standards => a.standards

/-- A catalog row as seen by the matcher: the eight columns of
`SPEC_TO_DB_COL` as raw strings.  `none` models a column missing from the
frame (`col not in product_row.index`); pandas `NaN` stringifies to the
literal `"nan"`. -/
structure ProductSpecRow where
  voltage_rating : Option (List Char)
  conductor_material : Option (List Char)
  insulation_type : Option (List Char)
  number_of_cores : Option (List Char)
  armoring : Option (List Char)
  conductor_size_mm2 : Option (List Char)
  temperature_rating_c : Option (List Char)
  standards_compliance : Option (List Char)
deriving DecidableEq, Repr

def ProductSpecRow.col (row : ProductSpecRow) : SpecKey → Option (List Char)
  | .voltage => row.voltage_rating
  | .conductor_material => row.conductor_material
  | .insulation_type => row.insulation_type
  | .cores => row.number_of_cores
  | .armoring => row.armoring
  | .conductor_size_mm2 => row.conductor_size_mm2
  | .temperature_rating_c => row.temperature_rating_c
  | .standards => row.standards_compliance

/-- Source `_norm`: `re.sub(r'[^\w\s]', ' ', str(val).lower()).strip()`. -/
def normS (l : List Char) : List Char :=
  stripWS ((lowerL l).map (fun c => if isWordChar c || isWSChar c then c else ' '))

def removeSp (l : List Char) : List Char := l.filter (fun c => c != ' ')

def MATERIAL_SYNONYMS : List (List Char × List (List Char)) :=
  [("copper".toList, ["cu".toList, "copper".toList]),
   ("aluminum".toList,
    ["al".toList, "aluminium".toList, "aluminum".toList, "alumunium".toList])]

def INSULATION_SYNONYMS : List (List Char × List (List Char)) :=
  [("xlpe".toList,
    ["xlpe".toList, "cross-linked polyethylene".toList,
     "cross linked polyethylene".toList]),
   ("pvc".toList, ["pvc".toList, "polyvinyl chloride".toList]),
   ("epr".toList, ["epr".toList, "ethylene propylene rubber".toList])]

/-- The synonym-table loop of `_match_spec`: the first canonical entry that
the RFP value belongs to decides the result; `none` means fall through to
the plain substring comparison. -/
def synMatch (syns : List (List Char × List (List Char)))
    (rv p : List Char) : Option Bool :=
  match syns with
  | [] => none
  | (canon, vars) :: rest =>
    if vars.contains rv || rv == canon then
      some (vars.any (fun v => infixOfB v p) || infixOfB canon p)
    else synMatch rest rv p

/-- Model of Python `float()` on plain decimal literals (optional
surrounding whitespace, optional sign, digits with an optional fractional
part or a leading dot).  Exponent and special forms are out of the model
and yield `none`; the extractor only ever produces plain digit strings. -/
def pyFloat (l : List Char) : Option ℚ :=
  let t := stripWS l
  let sgn : ℚ × List Char :=
    match t with
    | '-' :: r => (-1, r)
    | '+' :: r => (1, r)
    | _ => (1, t)
  let d1 := digitsOf sgn.2
  let r1 := restAfterDigits sgn.2
  if d1.isEmpty then
    match r1 with
    | '.' :: r2 =>
      let d2 := digitsOf r2
      if d2.isEmpty then none
      else if (restAfterDigits r2).isEmpty then some (sgn.1 * ratOfParts [] d2)
      else none
    | _ => none
  else
    match r1 with
    | [] => some (sgn.1 * (natOfDigits d1 : ℚ))
    | '.' :: r2 =>
      if (restAfterDigits r2).isEmpty then some (sgn.1 * ratOfParts d1 (digitsOf r2))
      else none
    | _ => none

/-- First number in a string: `re.search(r'\d+(?:\.\d+)?', s)`. -/
def numAt (s : List Char) : Option ℚ :=
  let d1 := digitsOf s
  if d1.isEmpty then none
  else
    match restAfterDigits s with
    | '.' :: r2 =>
      let d2 := digitsOf r2
      if d2.isEmpty then some (ratOfParts d1 []) else some (ratOfParts d1 d2)
    | _ => some (ratOfParts d1 [])

def numSearch (s : List Char) : Option ℚ := findMap numAt s

/-- Source `_match_spec` from the technical agent. -/
def matchSpec (k : SpecKey) (rv : List Char) (row : ProductSpecRow) : Bool :=
  match row.col k with
  | none => false
  | some pv =>
    if pv == "nan".toList || pv == [] || pv == "None".toList then false
    else
      let p := normS pv
      let r := normS rv
      match k with
      | .voltage =>
        infixOfB (removeSp r) (removeSp p) || infixOfB (removeSp p) (removeSp r)
      | .conductor_material =>
        (synMatch MATERIAL_SYNONYMS rv p).getD (infixOfB r p)
      | .insulation_type =>
        (synMatch INSULATION_SYNONYMS rv p).getD (infixOfB r p)
      | .cores => infixOfB r p
      | .armoring =>
        if rv == "armoured".toList then
          ["steel".toList, "swa".toList, "armour".toList].any
            (fun w => infixOfB w p)
        else if rv == "unarmoured".toList then
          infixOfB "unarmour".toList p || p == [] || pv == "nan".toList
        else false
      | .conductor_size_mm2 =>
        match pyFloat rv, numSearch pv with
        | some a, some b => b == a
        | _, _ => infixOfB r p
      | .temperature_rating_c =>
        match pyFloat rv, numSearch pv with
        | some a, some b => decide (a ≤ b)
        | _, _ => infixOfB r p
      | .standards =>
        (rv.splitOn ',').any
          (fun std =>
            let s2 := lowerL (stripWS std)
            !s2.isEmpty && infixOfB s2 p)

/-- The accumulation loop of `compute_spec_match`:
`(weighted_matched, total_weight)`. -/
def specFold (attrs : AttributeSet) (row : ProductSpecRow) : ℚ × ℚ :=
  SPEC_KEYS.foldl
    (fun acc k =>
      match attrs.get k with
      | none => acc
      | some rv =>
        (acc.1 + (if matchSpec k rv row then SPEC_WEIGHTS k else 0),
         acc.2 + SPEC_WEIGHTS k))
    (0, 0)

/-- Round-half-to-even on rationals, modelling Python's `round` (the
values rounded in this development are far enough from ties that the
binary-float detour of the source cannot change the result). -/
def roundHE (x : ℚ) : ℤ :=
  let n := ⌊x⌋
  let f := x - (n : ℚ)
  if f < 1 / 2 then n
  else if 1 / 2 < f then n + 1
  else if n % 2 = 0 then n else n + 1

/-- Python `round(x, k)`. -/
def roundTo (k : ℕ) (x : ℚ) : ℚ := ((roundHE (x * 10 ^ k) : ℚ)) / 10 ^ k

/-- Python `round(x, 2)`. -/
def round2 (x : ℚ) : ℚ := roundTo 2 x

/-- Source `compute_spec_match` (score part):
`round((weighted_matched / total_weight) * 100, 2)`, or `0.0` when no
specs were specified. -/
def compute_spec_match (attrs : AttributeSet) (row : ProductSpecRow) : ℚ :=
  let wm := (specFold attrs row).1
  let tw := (specFold attrs row).2
  if tw = 0 then 0 else round2 (wm / tw * 100)

/-- The per-attribute component table also returned by
`compute_spec_match`. -/
def specComponents (attrs : AttributeSet) (row : ProductSpecRow) :
    List (SpecKey × String) :=
  SPEC_KEYS.map (fun k =>
    (k, match attrs.get k with
        | none => "N/A (not specified)"
        | some rv => if matchSpec k rv row then "Match" else "No Match"))

/-!  The specification's formulation of the weighted score, used to compare
the implementation against the claimed closed formula. -/

/-- Keys actually specified by the RFP attribute set. -/
def specifiedKeys (attrs : AttributeSet) : List SpecKey :=
  SPEC_KEYS.filter (fun k => (attrs.get k).isSome)

/-- Did the product hit the given specified attribute? -/
def specHit (attrs : AttributeSet) (row : ProductSpecRow) (k : SpecKey) : Bool :=
  match attrs.get k with
  | some rv => matchSpec k rv row
  | none => false

/-- The claim's closed formula:
`100 × (Σ weight over specified-and-hit) / (Σ weight over specified)`,
`0` when nothing is specified. -/
def claimSpecScore (attrs : AttributeSet) (row : ProductSpecRow) : ℚ :=
  if specifiedKeys attrs = [] then 0
  else
    100 * (((specifiedKeys attrs).filter (specHit attrs row)).map SPEC_WEIGHTS).sum /
      ((specifiedKeys attrs).map SPEC_WEIGHTS).sum

/-- Concrete attribute set (voltage, material and insulation specified)
used to exercise `compute_spec_match` at a non-terminating decimal. -/
def c3Attrs : AttributeSet :=
  { voltage := some "11 kv".toList
  , conductor_material := some "copper".toList
  , insulation_type := some "pvc".toList
  , cores := none
  , armoring := none
  , conductor_size_mm2 := none
  , temperature_rating_c := none
  , standards := none }

/-- Concrete catalog row hitting voltage and material but not insulation. -/
def c3Row : ProductSpecRow :=
  { voltage_rating := some "11 kV".toList
  , conductor_material := some "Copper".toList
  , insulation_type := some "XLPE".toList
  , number_of_cores := none
  , armoring := none
  , conductor_size_mm2 := none
  , temperature_rating_c := none
  , standards_compliance := none }

/-!
Scoring agent (`agents/scoring_agent.py`, class `RFPScorer`).

`math.exp` is transcendental; it is modelled by an arbitrary function
parameter `pyexp : ℚ → ℚ`.  The bound and penalty properties below hold
for every positive such function, hence in particular for the float
exponential of the source.  Likewise the deadline arithmetic
(`datetime.fromisoformat` minus `datetime.now()`) is impure and is
modelled by a parameter `parseDays` giving the number of days until a
deadline string (`none` models a parse failure swallowed by the
`try/except`). -/

/-- A match candidate as consumed by the scorer: on the Python side a
dict, whose `.get` defaults (`spec_match_percent` → 0, `category` →
`'Unknown'`) are folded into total fields.  Entries of the candidate list
may be Python `None`, hence `Option MatchCand` below. -/
structure MatchCand where
  spec_match_percent : ℚ
  product_id : String
  category : String
deriving DecidableEq, Repr

/-- A catalog row as seen by the scorer. -/
structure CatalogRow where
  product_id : String
  unit_price : ℚ
  min_order_qty : ℚ
  lead_time_days : ℚ
  bis_certified : List Char
  standards_compliance : List Char
  warranty_years : ℚ
deriving DecidableEq, Repr

/-- Lookup `self.product_db[self.product_db['Product_ID'] == product_id]` with
`.iloc[0]`: first row matching the identifier. -/
def dbFind (db : List CatalogRow) (pid : String) : Option CatalogRow :=
  db.find? (fun r => r.product_id == pid)

/-- Filter `valid_matches = [m for m in matches if m and m.get('spec_match_percent', 0) > 0]`. -/
def validMatches (ms : List (Option MatchCand)) : List MatchCand :=
  (ms.filterMap id).filter (fun m => decide (0 < m.spec_match_percent))

/-- The exponential-decay accumulation loop of `score_technical_match`,
over `valid_matches[:5]` starting at index `i`:
returns `(total_score, total_weight)`. -/
def techSums (pyexp : ℚ → ℚ) : List MatchCand → ℕ → ℚ × ℚ
  | [], _ => (0, 0)
  | m :: rest, i =>
    let w := pyexp (-(3 / 10) * (i : ℚ))
    let acc := techSums pyexp rest (i + 1)
    (m.spec_match_percent * w + acc.1, w + acc.2)

/-- Quotient `weighted_avg = total_score / total_weight if total_weight > 0 else 0`. -/
def techWeightedAvg (pyexp : ℚ → ℚ) (v : List MatchCand) : ℚ :=
  let s := techSums pyexp (v.take 5) 0
  if 0 < s.2 then s.1 / s.2 else 0

/-- Count `good_matches = len([m for m in valid_matches if m['spec_match_percent'] >= 70])`. -/
def goodMatchCount (v : List MatchCand) : ℕ :=
  (v.filter (fun m => decide (70 ≤ m.spec_match_percent))).length

/-- Bonus `diversity_multiplier = min(1.0 + (good_matches - 1) * 0.05, 1.15)`. -/
def diversityMultiplier (v : List MatchCand) : ℚ :=
  min (1 + ((goodMatchCount v : ℚ) - 1) * (1 / 20)) (23 / 20)

/-- Source `RFPScorer.score_technical_match`. -/
def score_technical_match (pyexp : ℚ → ℚ) (ms : List (Option MatchCand)) : ℚ :=
  if ms.isEmpty then 0
  else
    let v := validMatches ms
    if v.isEmpty then 0
    else min (techWeightedAvg pyexp v * diversityMultiplier v) 100

/-- Source `RFPScorer.score_price_competitiveness`. -/
def score_price_competitiveness (pyexp : ℚ → ℚ) (db : List CatalogRow)
    (estimated_price : ℚ) (ms : List (Option MatchCand)) : ℚ :=
  if estimated_price ≤ 0 ∨ ms.isEmpty then 0
  else
    let cost0 :=
      ((ms.filterMap id).filterMap
        (fun m => (dbFind db m.product_id).map
          (fun r => r.unit_price * r.min_order_qty))).sum
    let actual_cost := if cost0 ≤ 0 then estimated_price * (7 / 10) else cost0
    let margin :=
      if 0 < estimated_price then (estimated_price - actual_cost) / estimated_price
      else 0
    let dev := |margin - 1 / 4|
    let s1 := 100 / (1 + pyexp (10 * (dev - 1 / 10)))
    let s2 :=
      if margin < 1 / 20 then s1 * (1 / 2)
      else if 1 / 2 < margin then s1 * (3 / 5)
      else s1
    max 0 (min s2 100)

/-- Source `RFPScorer.score_delivery_capability`. -/
def score_delivery_capability (db : List CatalogRow)
    (parseDays : List Char → Option ℤ) (ms : List (Option MatchCand))
    (deadline : Option (List Char)) : ℚ :=
  if ms.isEmpty then 0
  else
    let pairs :=
      (ms.filterMap id).filterMap
        (fun m => (dbFind db m.product_id).map
          (fun r => (r.lead_time_days, m.spec_match_percent)))
    let tl := (pairs.map (fun p => p.1 * p.2)).sum
    let tw := (pairs.map (fun p => p.2)).sum
    let avg := if 0 < tw then tl / tw else 30
    let base := max 40 (100 - (avg - 15) * (4 / 5))
    let base2 :=
      match deadline with
      | none => base
      | some d =>
        match parseDays d with
        | none => base
        | some days => if (days : ℚ) * (7 / 10) < avg then base * (7 / 10) else base
    max 0 (min base2 100)

/-- Rows resolved from the database for the non-`None` candidates, in
order (the loop shape shared by `score_compliance` and the MOQ check of
`score_risk_assessment`). -/
def resolvedRows (db : List CatalogRow) (ms : List (Option MatchCand)) :
    List CatalogRow :=
  (ms.filterMap id).filterMap (fun m => dbFind db m.product_id)

def stdKeywordAny (p : List Char) : Bool :=
  ["is", "iec", "ieee", "iso"].any (fun w => infixOfB w.toList p)

/-- Source `RFPScorer.score_compliance`. -/
def score_compliance (db : List CatalogRow) (ms : List (Option MatchCand)) : ℚ :=
  if ms.isEmpty then 0
  else
    let rows := resolvedRows db ms
    let total := rows.length
    if total = 0 then 0
    else
      let bis := (rows.filter (fun r => lowerL r.bis_certified == "yes".toList)).length
      let std := (rows.filter (fun r => stdKeywordAny (lowerL r.standards_compliance))).length
      let wsum := (rows.map (fun r => min r.warranty_years 5)).sum
      min ((bis : ℚ) / (total : ℚ) * 40 + (std : ℚ) / (total : ℚ) * 40 +
        wsum / (total : ℚ) / 5 * 20) 100

/-- Source `RFPScorer.score_risk_assessment` (`estimated_price` is accepted but
unused, as in the source). -/
def score_risk_assessment (db : List CatalogRow) (ms : List (Option MatchCand))
    (estimated_price : ℚ) : ℚ :=
  if ms.isEmpty then 0
  else
    let avail := min ((ms.length : ℚ) * 20) 50
    let cats := (((ms.filterMap id).map (fun m => m.category)).dedup).length
    let divScore := min ((cats : ℚ) * 15) 30
    let highMoq :=
      ((resolvedRows db ms).filter (fun r => decide (500 < r.min_order_qty))).length
    let consistency := max (20 - (highMoq : ℚ) * 5) 0
    min (avail + divScore + consistency) 100

/-- The fixed weights of `RFPScorer.WEIGHTS`. -/
def W_TECH : ℚ := 35 / 100
def W_PRICE : ℚ := 25 / 100
def W_DELIVERY : ℚ := 15 / 100
def W_COMPLIANCE : ℚ := 15 / 100
def W_RISK : ℚ := 10 / 100

/-- Source `RFPScorer._get_recommendation`. -/
def getRecommendation (final tech price : ℚ) : String :=
  if 75 ≤ final then "STRONGLY RECOMMEND - Proceed with bid preparation"
  else if 60 ≤ final then
    if tech < 60 then "CONDITIONAL - Technical gaps identified, assess feasibility"
    else if price < 60 then
      "CONDITIONAL - Pricing optimization needed, review cost structure"
    else "RECOMMEND - Good opportunity with minor optimization potential"
  else if 45 ≤ final then
    "CAUTION - Significant gaps exist, evaluate strategic value before proceeding"
  else "DO NOT PURSUE - Poor fit, resources better allocated elsewhere"

def gradeOf (final : ℚ) : String :=
  if 85 ≤ final then "A+ (Excellent)"
  else if 75 ≤ final then "A (Very Good)"
  else if 65 ≤ final then "B+ (Good)"
  else if 55 ≤ final then "B (Satisfactory)"
  else if 45 ≤ final then "C (Marginal)"
  else "D (Poor)"

/-- The result dictionary of `calculate_final_score` (weighted
contributions included). -/
structure ScoreResult where
  final_score : ℚ
  grade : String
  normalized_score : ℚ
  technical_match : ℚ
  price_competitiveness : ℚ
  delivery_capability : ℚ
  compliance : ℚ
  risk_assessment : ℚ
  contrib_technical : ℚ
  contrib_price : ℚ
  contrib_delivery : ℚ
  contrib_compliance : ℚ
  contrib_risk : ℚ
  recommendation : String
deriving Repr

/-- Source `RFPScorer.calculate_final_score`. -/
def calculate_final_score (pyexp : ℚ → ℚ) (parseDays : List Char → Option ℤ)
    (db : List CatalogRow) (ms : List (Option MatchCand))
    (estimated_price : ℚ) (deadline : Option (List Char)) : ScoreResult :=
  let tech := score_technical_match pyexp ms
  let price := score_price_competitiveness pyexp db estimated_price ms
  let delivery := score_delivery_capability db parseDays ms deadline
  let compliance := score_compliance db ms
  let risk := score_risk_assessment db ms estimated_price
  let final := tech * W_TECH + price * W_PRICE + delivery * W_DELIVERY +
    compliance * W_COMPLIANCE + risk * W_RISK
  { final_score := round2 final
  , grade := gradeOf final
  , normalized_score := roundTo 4 (final / 100)
  , technical_match := round2 tech
  , price_competitiveness := round2 price
  , delivery_capability := round2 delivery
  , compliance := round2 compliance
  , risk_assessment := round2 risk
  , contrib_technical := round2 (tech * W_TECH)
  , contrib_price := round2 (price * W_PRICE)
  , contrib_delivery := round2 (delivery * W_DELIVERY)
  , contrib_compliance := round2 (compliance * W_COMPLIANCE)
  , contrib_risk := round2 (risk * W_RISK)
  , recommendation := getRecommendation final tech price }

/-!
Theorems.  Helper lemmas first, then one theorem per claim (with
witnesses and counterexamples where applicable).
-/

theorem dropWhile_idem (p : Char → Bool) (l : List Char) :
    (l.dropWhile p).dropWhile p = l.dropWhile p := by
  induction l with
  | nil => simp
  | cons c t ih =>
    by_cases h : p c
    · simp [List.dropWhile_cons, h, ih]
    · simp [List.dropWhile_cons, h]


theorem dropWhile_eq_self_of_ne (p : Char → Bool) (l : List Char)
    (h : l.dropWhile p = l) : ∀ c t, l = c :: t → p c = false := by
  intro c t hl
  subst hl
  by_cases hc : p c
  · exfalso
    have h2 : (c :: t).dropWhile p = t.dropWhile p := by
      simp [List.dropWhile_cons, hc]
    have h3 : (t.dropWhile p).length ≤ t.length :=
      (List.dropWhile_suffix p).sublist.length_le
    have h4 : ((c :: t).dropWhile p).length = (c :: t).length := by rw [h]
    rw [h2] at h4
    simp at h4
    omega
  · simp [hc]


theorem stripWS_def (l : List Char) :
    stripWS l = ((l.dropWhile isWSChar).reverse.dropWhile isWSChar).reverse := rfl


theorem dropWhile_stripWS (l : List Char) :
    (stripWS l).dropWhile isWSChar = stripWS l := by
  rcases h : stripWS l with _ | ⟨c, t⟩
  · simp
  · have hpre : stripWS l <+: l.dropWhile isWSChar := by
      rw [stripWS_def]
      have hs : ((l.dropWhile isWSChar).reverse.dropWhile isWSChar) <:+
          (l.dropWhile isWSChar).reverse := List.dropWhile_suffix _
      have := List.reverse_prefix.mpr
        (by simpa using hs)
      simpa using this
    rw [h] at hpre
    obtain ⟨rest, hrest⟩ := hpre
    have hhead : isWSChar c = false := by
      apply dropWhile_eq_self_of_ne isWSChar (l.dropWhile isWSChar)
        (dropWhile_idem _ _) c (t ++ rest)
      simp [← hrest]
    simp [List.dropWhile_cons, hhead]


theorem stripWS_idem (l : List Char) : stripWS (stripWS l) = stripWS l := by
  rw [stripWS_def (stripWS l), dropWhile_stripWS]
  have : (stripWS l).reverse.dropWhile isWSChar = (stripWS l).reverse := by
    rw [stripWS_def]
    simp only [List.reverse_reverse]
    exact dropWhile_idem _ _
  rw [this, List.reverse_reverse]


theorem mem_cleanItems {x : List Char} {parts : List (List Char)}
    (h : x ∈ cleanItems parts) :
    stripWS x = x ∧ x ≠ [] ∧ 10 ≤ x.length := by
  unfold cleanItems at h
  obtain ⟨hmem, hpred⟩ := List.mem_filter.mp h
  obtain ⟨p, _, hp⟩ := List.mem_map.mp hmem
  refine ⟨?_, ?_, ?_⟩
  · rw [← hp, stripWS_idem]
  · intro hx
    rw [hx] at hpred
    simp at hpred
  · have := (Bool.and_eq_true _ _).mp hpred
    exact of_decide_eq_true this.2


theorem foldl_max_mem (x : ℤ) (xs : List ℤ) : xs.foldl max x ∈ x :: xs := by
  induction xs generalizing x with
  | nil => simp
  | cons y ys ih =>
    have h := ih (max x y)
    simp only [List.foldl_cons]
    rcases List.mem_cons.mp h with h1 | h2
    · rcases max_choice x y with hx | hy
      · rw [h1, hx]
        exact List.mem_cons_self _ _
      · rw [h1, hy]
        exact List.mem_cons_of_mem _ (List.mem_cons_self _ _)
    · exact List.mem_cons_of_mem _ (List.mem_cons_of_mem _ h2)

theorem le_foldl_max (x : ℤ) (xs : List ℤ) :
    ∀ y ∈ x :: xs, y ≤ xs.foldl max x := by
  induction xs generalizing x with
  | nil =>
    intro y hy
    simp at hy
    simp [hy]
  | cons z zs ih =>
    intro y hy
    have hbase : max x z ≤ zs.foldl max (max x z) :=
      ih (max x z) (max x z) (List.mem_cons_self _ _)
    simp only [List.foldl_cons]
    rcases List.mem_cons.mp hy with h1 | h2
    · subst h1
      exact le_trans (le_max_left _ _) hbase
    · rcases List.mem_cons.mp h2 with h3 | h4
      · subst h3
        exact le_trans (le_max_right _ _) hbase
      · exact ih (max x z) y (List.mem_cons_of_mem _ h4)

theorem maxMinQty_attained {rows : List DiscountRow} (h : rows ≠ []) :
    (∃ r ∈ rows, r.minQty = maxMinQty rows) ∧
      ∀ r ∈ rows, r.minQty ≤ maxMinQty rows := by
  obtain ⟨r0, rest, hr⟩ := List.exists_cons_of_ne_nil h
  subst hr
  have hmap : (r0 :: rest).map (fun r => r.minQty) =
      r0.minQty :: rest.map (fun r => r.minQty) := rfl
  have hdef : maxMinQty (r0 :: rest) =
      (rest.map (fun r => r.minQty)).foldl max r0.minQty := by
    simp [maxMinQty]
  constructor
  · have hmem := foldl_max_mem r0.minQty (rest.map (fun r => r.minQty))
    rw [← hmap] at hmem
    obtain ⟨r, hr1, hr2⟩ := List.mem_map.mp hmem
    exact ⟨r, hr1, by rw [hdef, hr2]⟩
  · intro r hr
    have : r.minQty ∈ r0.minQty :: rest.map (fun r => r.minQty) := by
      rw [← hmap]
      exact List.mem_map.mpr ⟨r, hr, rfl⟩
    rw [hdef]
    exact le_foldl_max _ _ _ this

theorem head?_filter_eq_find? (p : α → Bool) (l : List α) :
    (l.filter p).head? = l.find? p := by
  induction l with
  | nil => rfl
  | cons c t ih =>
    by_cases hc : p c
    · simp [List.filter_cons, List.find?_cons, hc]
    · simp [List.filter_cons, List.find?_cons, hc, ih]

/-- C1 (code bug): quantity extraction can raise — on a line item whose
`[\d,]+` token is commas only (e.g. "cables, meters") the source crashes
in `int('')` before any order quantity is resolved, although its own
docstring promises `None` for "no quantity found" and the spec says
pricing never raises.  Wherever extraction does return, the order
quantity is `max(q, m)`: never below the MOQ and never below the
extracted quantity. -/
theorem c1_order_quantity :
    extract_rfp_quantity "cables, meters".toList = Except.error () ∧
    ∀ (t : List Char) (moq : ℤ) (q : Option ℤ),
      extract_rfp_quantity t = Except.ok q →
      resolveOrderQty t moq = some (max (q.getD 0) moq) ∧
      moq ≤ max (q.getD 0) moq ∧
      ∀ n, q = some n → n ≤ max (q.getD 0) moq := by
  refine ⟨rfl, ?_⟩
  intro t moq q hq
  refine ⟨?_, le_max_right _ _, ?_⟩
  · unfold resolveOrderQty
    rw [hq]
  · intro n hn
    subst hn
    exact le_max_left _ _

theorem c1_order_quantity_witness :
    resolveOrderQty "Quantity: 1900 meters".toList 200 =
      some (max ((some (1900 : ℤ)).getD 0) 200) ∧
    (200 : ℤ) ≤ max ((some (1900 : ℤ)).getD 0) 200 ∧
    (1900 : ℤ) ≤ max ((some (1900 : ℤ)).getD 0) 200 := by
  have h := (c1_order_quantity.2 "Quantity: 1900 meters".toList 200
    (some 1900) rfl)
  exact ⟨h.1, h.2.1, h.2.2 1900 rfl⟩

theorem discount_isSome_of_ne (pid : String) (q : ℤ) (table2 : List DiscountRow)
    (h : table2.filter (fun r => r.product_id == pid) ≠ []) :
    ∃ v, get_discounted_unit_price pid q (some table2) = some v := by
  obtain ⟨rm, hm, hqm⟩ := (maxMinQty_attained h).1
  simp only [get_discounted_unit_price]
  rw [if_neg (by simpa using h)]
  rcases hcase : (table2.filter (fun r => r.product_id == pid)).filter
      (fun r => decide (r.minQty ≤ q) && decide (q ≤ r.maxQty)) with _ | ⟨c, cs⟩
  · have hm_ne : (table2.filter (fun r => r.product_id == pid)).filter
        (fun r => r.minQty ==
          maxMinQty (table2.filter (fun r => r.product_id == pid))) ≠ [] := by
      intro hnil
      have := List.filter_eq_nil_iff.mp hnil rm hm
      simp [hqm] at this
    obtain ⟨cc, ccs, hccs⟩ := List.exists_cons_of_ne_nil hm_ne
    rw [hcase, hccs]
    exact ⟨cc.unitPrice, rfl⟩
  · rw [hcase]
    exact ⟨c.unitPrice, rfl⟩

/-- C10: for a product that has discount rows, whenever no band's
`[min, max]` range contains the order quantity — including quantities
below every band — the returned price is that of the first row carrying
the greatest minimum quantity; `none` is returned exactly when the table
is absent or holds no row for the product. -/
theorem c10_discount_fallback (table : List DiscountRow) (pid : String) (q : ℤ)
    (hne : table.filter (fun r => r.product_id == pid) ≠ [])
    (hout : ∀ r ∈ table.filter (fun r => r.product_id == pid),
      ¬(r.minQty ≤ q ∧ q ≤ r.maxQty)) :
    (get_discounted_unit_price pid q (some table) =
      ((table.filter (fun r => r.product_id == pid)).find?
        (fun r => r.minQty ==
          maxMinQty (table.filter (fun r => r.product_id == pid)))).map
        (fun r => r.unitPrice)) ∧
    (∃ r ∈ table.filter (fun r => r.product_id == pid),
      r.minQty = maxMinQty (table.filter (fun r => r.product_id == pid)) ∧
      ∀ r2 ∈ table.filter (fun r => r.product_id == pid),
        r2.minQty ≤ r.minQty) ∧
    get_discounted_unit_price pid q none = none ∧
    (∀ table2 : List DiscountRow,
      get_discounted_unit_price pid q (some table2) = none ↔
        table2.filter (fun r => r.product_id == pid) = []) := by
  set rows := table.filter (fun r => r.product_id == pid) with hrows
  have hcont : rows.filter
      (fun r => decide (r.minQty ≤ q) && decide (q ≤ r.maxQty)) = [] := by
    rw [List.filter_eq_nil_iff]
    intro r hr
    have := hout r hr
    simp only [Bool.and_eq_true, decide_eq_true_eq]
    exact fun hprop => this hprop
  have hatt := maxMinQty_attained hne
  obtain ⟨rmax, hrmem, hrmax⟩ := hatt.1
  have hmatched_ne : rows.filter (fun r => r.minQty == maxMinQty rows) ≠ [] := by
    intro hnil
    have := List.filter_eq_nil_iff.mp hnil rmax hrmem
    simp [hrmax] at this
  refine ⟨?_, ⟨rmax, hrmem, hrmax, ?_⟩, rfl, ?_⟩
  · show get_discounted_unit_price pid q (some table) = _
    simp only [get_discounted_unit_price]
    simp only [← hrows]
    rw [if_neg (by simpa using hne)]
    simp only [hcont, List.isEmpty_nil, if_pos rfl]
    rw [← head?_filter_eq_find?]
    obtain ⟨rr, tt, htt⟩ := List.exists_cons_of_ne_nil hmatched_ne
    rw [htt]
    rfl
  · intro r2 hr2
    rw [hrmax]
    exact hatt.2 r2 hr2
  · intro table2
    constructor
    · intro hres
      by_contra hne2
      obtain ⟨v, hv⟩ := discount_isSome_of_ne pid q table2 hne2
      rw [hv] at hres
      cases hres
    · intro hempty
      simp only [get_discounted_unit_price]
      rw [hempty]
      rfl

theorem c10_discount_fallback_witness :
    get_discounted_unit_price "P" 50
      (some [⟨"P", 100, 200, 90⟩, ⟨"P", 300, 400, 80⟩]) = some 80 := by
  have h := c10_discount_fallback [⟨"P", 100, 200, 90⟩, ⟨"P", 300, 400, 80⟩]
    "P" 50 (by decide) (by decide)
  exact h.1.trans (by decide)

/-- C6: the voltage class is `LV` for parsed values at most 1.1 kV, `MV`
up to 6.6 kV, `HV` above; bare-volt ratings are divided by 1000 before
classification, and empty or unparseable ratings classify as `LV` —
stated as equality with the claim's closed-form classifier, plus the
bare-volt instance `"415 V" → LV`. -/
theorem c6_voltage_class :
    (∀ s : List Char, voltage_class s = voltageClassClaim s) ∧
    voltage_class "415 V".toList = "LV" ∧
    voltage_class "11 kV".toList = "HV" ∧
    voltage_class "6.6 kV".toList = "MV" ∧
    voltage_class [] = "LV" := by
  refine ⟨?_, by with_unfolding_all decide, by with_unfolding_all decide,
    by with_unfolding_all decide, by with_unfolding_all decide⟩
  intro s
  by_cases hs : s.isEmpty
  · have hnil : s = [] := by simpa using hs
    subst hnil
    with_unfolding_all decide
  · rcases hkv : findMap kvAt (lowerL s) with _ | q <;>
      rcases hbv : findMap bareVAt (lowerL s) with _ | v <;>
      simp only [voltage_class, voltageClassClaim, parsedVoltageKV, classifyKV,
        LV_MAX_KV, MV_MAX_KV, hkv, hbv, Option.map_some', Option.map_none',
        if_neg hs]

/-- C7: the specification extractor is a pure, deterministic, total
function of its input text in this embedding: identical texts yield
identical attribute sets, and every input produces an `AttributeSet`
(failed patterns appear as `none` fields rather than errors). -/
theorem c7_extractor_deterministic :
    (∀ t : List Char, extract_rfp_specs t = extract_rfp_specs t) ∧
    (∀ t1 t2 : List Char, t1 = t2 → extract_rfp_specs t1 = extract_rfp_specs t2) := by
  exact ⟨fun _ => rfl, fun t1 t2 h => by rw [h]⟩

theorem c7_extractor_deterministic_witness :
    extract_rfp_specs "11 kV copper cable".toList =
      extract_rfp_specs "11 kV copper cable".toList :=
  c7_extractor_deterministic.2 _ _ rfl

theorem mem_if_nil {α : Type} {a : α} {c : Prop} [Decidable c] {l : List α} :
    (a ∈ if c then l else []) ↔ c ∧ a ∈ l := by
  split <;> simp_all

theorem rt01_mem_keywordCodes (low : List Char) :
    ("RT-01" ∈ keywordCodes low) ↔ rxSearch kwRoutine low = true := by
  simp [keywordCodes, List.mem_append, mem_if_nil]

theorem mem_extract_required_tests (text vr : List Char) (code : String) :
    code ∈ extract_required_tests text vr ↔
      code ∈ UNIVERSAL_TESTS ++ VOLTAGE_CLASS_TESTS (voltage_class vr) ∨
      code ∈ (if (stripWS text).isEmpty then [] else keywordCodes (lowerL text)) := by
  unfold extract_required_tests
  rw [List.mem_mergeSort, List.mem_dedup]
  exact List.mem_append

/-- C2 (amended): for every testing text, an LV-classified rating always
yields RT-01 and HVWT-1.1KV; an HV-classified rating always yields
HVWT-11KV and AT-02, and contains RT-01 exactly when the testing text is
non-blank and matches the routine-test keyword pattern (the keyword
overlay can add RT-01 to HV items, contrary to the claim as stated). -/
theorem c2_voltage_class_tests (text vr : List Char) :
    (voltage_class vr = "LV" →
      "RT-01" ∈ extract_required_tests text vr ∧
      "HVWT-1.1KV" ∈ extract_required_tests text vr) ∧
    (voltage_class vr = "HV" →
      "HVWT-11KV" ∈ extract_required_tests text vr ∧
      "AT-02" ∈ extract_required_tests text vr ∧
      ("RT-01" ∈ extract_required_tests text vr ↔
        stripWS text ≠ [] ∧ rxSearch kwRoutine (lowerL text) = true)) := by
  constructor
  · intro hLV
    constructor
    · rw [mem_extract_required_tests, hLV]
      left
      decide
    · rw [mem_extract_required_tests, hLV]
      left
      decide
  · intro hHV
    refine ⟨?_, ?_, ?_⟩
    · rw [mem_extract_required_tests, hHV]
      left
      decide
    · rw [mem_extract_required_tests, hHV]
      left
      decide
    · rw [mem_extract_required_tests, hHV]
      constructor
      · rintro (hb | hk)
        · exfalso
          revert hb
          decide
        · by_cases he : (stripWS text).isEmpty
          · rw [if_pos he] at hk
            cases hk
          · rw [if_neg he] at hk
            refine ⟨by simpa using he, (rt01_mem_keywordCodes _).mp hk⟩
      · rintro ⟨hne, hsearch⟩
        right
        rw [if_neg (by simpa using hne)]
        exact (rt01_mem_keywordCodes _).mpr hsearch

theorem c2_voltage_class_tests_witness :
    "RT-01" ∈ extract_required_tests [] "0.4 kV".toList ∧
    "HVWT-1.1KV" ∈ extract_required_tests [] "0.4 kV".toList ∧
    "HVWT-11KV" ∈ extract_required_tests [] "11 kV".toList ∧
    "RT-01" ∉ extract_required_tests "mechanical inspection".toList "11 kV".toList := by
  have hLV := (c2_voltage_class_tests [] "0.4 kV".toList).1
    (by with_unfolding_all decide)
  have hHV := (c2_voltage_class_tests "mechanical inspection".toList "11 kV".toList).2
    (by with_unfolding_all decide)
  have hHV0 := (c2_voltage_class_tests [] "11 kV".toList).2
    (by with_unfolding_all decide)
  refine ⟨hLV.1, hLV.2, hHV0.1, ?_⟩
  intro hmem
  have := (hHV.2.2).mp hmem
  exact absurd this.2 (by decide)

/-- C2 counterexample: the claim's "never includes RT-01, regardless of
the testing-requirements text" fails — a testing text matching the
routine-test keyword adds RT-01 to an HV line item. -/
theorem c2_counterexample :
    voltage_class "11 kV".toList = "HV" ∧
    "RT-01" ∈ extract_required_tests "routine test".toList "11 kV".toList := by
  with_unfolding_all decide

theorem strat4_spec (text : List Char) (ht : stripWS text = text)
    (hne : text ≠ []) :
    strat4 text ≠ [] ∧ ∀ x ∈ strat4 text, x ≠ [] ∧ stripWS x = x ∧
      (1 < (strat4 text).length → 10 ≤ x.length) := by
  unfold strat4
  by_cases h : 1 < (cleanItems (splitInline text)).length
  · rw [if_pos h]
    refine ⟨?_, ?_⟩
    · intro h0
      rw [h0] at h
      simp at h
    · intro x hx
      obtain ⟨h1, h2, h3⟩ := mem_cleanItems hx
      exact ⟨h2, h1, fun _ => h3⟩
  · rw [if_neg h]
    refine ⟨by simp, ?_⟩
    intro x hx
    have hx2 : x = text := List.mem_singleton.mp hx
    subst hx2
    refine ⟨hne, ht, ?_⟩
    intro hlen
    simp at hlen

theorem strat3_spec (text : List Char) (ht : stripWS text = text)
    (hne : text ≠ []) :
    strat3 text ≠ [] ∧ ∀ x ∈ strat3 text, x ≠ [] ∧ stripWS x = x ∧
      (1 < (strat3 text).length → 10 ≤ x.length) := by
  unfold strat3
  by_cases h : text.contains '\n' ∧ 1 < (cleanItems (splitNewlines text)).length
  · rw [if_pos h]
    refine ⟨?_, ?_⟩
    · intro h0
      rw [h0] at h
      simp at h
    · intro x hx
      obtain ⟨h1, h2, h3⟩ := mem_cleanItems hx
      exact ⟨h2, h1, fun _ => h3⟩
  · rw [if_neg h]
    exact strat4_spec text ht hne

theorem strat2_spec (text : List Char) (ht : stripWS text = text)
    (hne : text ≠ []) :
    strat2 text ≠ [] ∧ ∀ x ∈ strat2 text, x ≠ [] ∧ stripWS x = x ∧
      (1 < (strat2 text).length → 10 ≤ x.length) := by
  unfold strat2
  by_cases h : 2 ≤ text.count ';' ∧ 1 < (cleanItems (splitSemicolon text)).length
  · rw [if_pos h]
    refine ⟨?_, ?_⟩
    · intro h0
      rw [h0] at h
      simp at h
    · intro x hx
      obtain ⟨h1, h2, h3⟩ := mem_cleanItems hx
      exact ⟨h2, h1, fun _ => h3⟩
  · rw [if_neg h]
    exact strat3_spec text ht hne

theorem strat1_spec (text : List Char) (ht : stripWS text = text)
    (hne : text ≠ []) :
    strat1 text ≠ [] ∧ ∀ x ∈ strat1 text, x ≠ [] ∧ stripWS x = x ∧
      (1 < (strat1 text).length → 10 ≤ x.length) := by
  unfold strat1
  by_cases h : 2 ≤ (splitStructured text).length ∧
      1 < (cleanItems (splitStructured text)).length
  · rw [if_pos h]
    refine ⟨?_, ?_⟩
    · intro h0
      rw [h0] at h
      simp at h
    · intro x hx
      obtain ⟨h1, h2, h3⟩ := mem_cleanItems hx
      exact ⟨h2, h1, fun _ => h3⟩
  · rw [if_neg h]
    exact strat2_spec text ht hne

/-- C5 (amended): empty or whitespace-only input yields the empty
sequence; otherwise the result is non-empty and every element is
non-empty and trimmed, and whenever the parser returns more than one item
every item is at least 10 characters long.  The single-item fallback
returns the whole trimmed text, which may be shorter than 10 characters
(contrary to the claim as stated). -/
theorem c5_parser_contract (s : List Char) :
    (stripWS s = [] → parse_scope_into_line_items s = []) ∧
    (stripWS s ≠ [] →
      parse_scope_into_line_items s ≠ [] ∧
      ∀ x ∈ parse_scope_into_line_items s,
        x ≠ [] ∧ stripWS x = x ∧
        (1 < (parse_scope_into_line_items s).length → 10 ≤ x.length)) := by
  constructor
  · intro h
    unfold parse_scope_into_line_items
    rw [if_pos (by simp [h])]
  · intro h
    unfold parse_scope_into_line_items
    rw [if_neg (by simpa using h)]
    exact strat1_spec (stripWS s) (stripWS_idem s) h

theorem c5_parser_contract_witness :
    parse_scope_into_line_items "   ".toList = [] ∧
    parse_scope_into_line_items
      "first line item alpha\nsecond line item beta".toList ≠ [] := by
  refine ⟨(c5_parser_contract _).1 (by decide),
    ((c5_parser_contract _).2 (by decide)).1⟩

/-- C5 counterexample: the fallback path returns the whole text as a
single item even when it is shorter than the claimed 10-character
minimum. -/
theorem c5_counterexample :
    parse_scope_into_line_items "short".toList = ["short".toList] ∧
    ("short".toList).length < 10 := by
  constructor
  · decide
  · decide

/-- C4: when both the required conductor cross-section and the catalog
value parse as numbers, the size attribute is a hit exactly when the two
numbers are equal, and the outcome depends only on the size column of the
catalog row. -/
theorem c4_exact_size (rv pv : List Char) (row : ProductSpecRow) (a b : ℚ)
    (hcol : row.conductor_size_mm2 = some pv)
    (hrv : pyFloat rv = some a)
    (hpv : numSearch pv = some b) :
    (matchSpec .conductor_size_mm2 rv row = true ↔ b = a) ∧
    (∀ row2 : ProductSpecRow, row2.conductor_size_mm2 = some pv →
      matchSpec .conductor_size_mm2 rv row2 = matchSpec .conductor_size_mm2 rv row) := by
  have hguard : (pv == "nan".toList || pv == [] || pv == "None".toList) = false := by
    by_cases h1 : pv = "nan".toList
    · subst h1
      rw [show numSearch "nan".toList = none from by decide] at hpv
      cases hpv
    · by_cases h2 : pv = []
      · subst h2
        rw [show numSearch [] = none from by decide] at hpv
        cases hpv
      · by_cases h3 : pv = "None".toList
        · subst h3
          rw [show numSearch "None".toList = none from by decide] at hpv
          cases hpv
        · have g1 : (pv == "nan".toList) = false := beq_eq_false_iff_ne.mpr h1
          have g2 : (pv == ([] : List Char)) = false := beq_eq_false_iff_ne.mpr h2
          have g3 : (pv == "None".toList) = false := beq_eq_false_iff_ne.mpr h3
          simp [g1, g2, g3]
          exact ⟨h1, h3⟩
  constructor
  · simp only [matchSpec, ProductSpecRow.col, hcol, hguard, Bool.false_eq_true,
      if_false, hrv, hpv]
    exact beq_iff_eq
  · intro row2 h2
    simp only [matchSpec, ProductSpecRow.col, hcol, h2]

theorem specFold_eq (attrs : AttributeSet) (row : ProductSpecRow) :
    ∀ (ks : List SpecKey) (a0 b0 : ℚ),
      ks.foldl
        (fun acc k =>
          match attrs.get k with
          | none => acc
          | some rv =>
            (acc.1 + (if matchSpec k rv row then SPEC_WEIGHTS k else 0),
             acc.2 + SPEC_WEIGHTS k))
        (a0, b0) =
      (a0 + (((ks.filter (fun k => (attrs.get k).isSome)).filter
          (specHit attrs row)).map SPEC_WEIGHTS).sum,
       b0 + ((ks.filter (fun k => (attrs.get k).isSome)).map SPEC_WEIGHTS).sum) := by
  intro ks
  induction ks with
  | nil =>
    intro a0 b0
    simp
  | cons k ks ih =>
    intro a0 b0
    rw [List.foldl_cons]
    rcases hk : attrs.get k with _ | rv
    · simp only [hk]
      rw [ih]
      have hf : (k :: ks).filter (fun k => (attrs.get k).isSome) =
          ks.filter (fun k => (attrs.get k).isSome) := by
        simp [List.filter_cons, hk]
      rw [hf]
    · simp only [hk]
      have hf : (k :: ks).filter (fun k => (attrs.get k).isSome) =
          k :: ks.filter (fun k => (attrs.get k).isSome) := by
        simp [List.filter_cons, hk]
      rw [hf]
      by_cases hm : matchSpec k rv row
      · have hh : specHit attrs row k = true := by simp [specHit, hk, hm]
        rw [ih]
        simp only [List.filter_cons, hh, if_pos, List.map_cons, List.sum_cons,
          if_true, hm]
        rw [Prod.mk.injEq]
        constructor <;> ring
      · have hh : specHit attrs row k = false := by simp [specHit, hk, hm]
        rw [ih]
        simp only [List.filter_cons, hh, List.map_cons, List.sum_cons,
          Bool.false_eq_true, if_false, hm]
        rw [Prod.mk.injEq]
        constructor <;> ring

theorem spec_weight_pos (k : SpecKey) : 0 < SPEC_WEIGHTS k := by
  cases k <;> norm_num [SPEC_WEIGHTS]

theorem spec_weight_sum_pos (ks : List SpecKey) (h : ks ≠ []) :
    0 < (ks.map SPEC_WEIGHTS).sum := by
  obtain ⟨k, rest, hk⟩ := List.exists_cons_of_ne_nil h
  subst hk
  simp only [List.map_cons, List.sum_cons]
  have h1 : 0 < SPEC_WEIGHTS k := spec_weight_pos k
  have h2 : 0 ≤ (rest.map SPEC_WEIGHTS).sum :=
    List.sum_nonneg (by
      intro x hx
      obtain ⟨k2, _, hk2⟩ := List.mem_map.mp hx
      rw [← hk2]
      exact le_of_lt (spec_weight_pos k2))
  linarith

theorem round2_zero : round2 (0 : ℚ) = 0 := by
  with_unfolding_all decide

/-- C3 (amended): the weighted match score equals the claimed closed
formula — 100 × (Σ weights over specified-and-hit) / (Σ weights over
specified), weight 3 for conductor cross-section and 1 elsewhere, absent
attributes excluded from both sums, 0 when nothing is specified — rounded
to two decimal places, as `round(..., 2)` in the source does. -/
theorem c3_weighted_score (attrs : AttributeSet) (row : ProductSpecRow) :
    compute_spec_match attrs row = round2 (claimSpecScore attrs row) ∧
    (specifiedKeys attrs = [] → compute_spec_match attrs row = 0) := by
  have hfold := specFold_eq attrs row SPEC_KEYS 0 0
  have hwm : (specFold attrs row).1 =
      (((specifiedKeys attrs).filter (specHit attrs row)).map SPEC_WEIGHTS).sum := by
    unfold specFold specifiedKeys
    rw [hfold]
    simp
  have htw : (specFold attrs row).2 =
      ((specifiedKeys attrs).map SPEC_WEIGHTS).sum := by
    unfold specFold specifiedKeys
    rw [hfold]
    simp
  by_cases hempty : specifiedKeys attrs = []
  · have htw0 : (specFold attrs row).2 = 0 := by
      rw [htw, hempty]
      simp
    have hc : compute_spec_match attrs row = 0 := by
      unfold compute_spec_match
      rw [if_pos htw0]
    have hclaim : claimSpecScore attrs row = 0 := by
      unfold claimSpecScore
      rw [if_pos hempty]
    exact ⟨by rw [hc, hclaim, round2_zero], fun _ => hc⟩
  · have htwpos : 0 < (specFold attrs row).2 := by
      rw [htw]
      exact spec_weight_sum_pos _ hempty
    constructor
    · unfold compute_spec_match
      rw [if_neg (by linarith)]
      unfold claimSpecScore
      rw [if_neg hempty]
      rw [hwm, htw]
      congr 1
      ring
    · intro h
      exact absurd h hempty


theorem c3_weighted_score_witness :
    compute_spec_match
      { voltage := none, conductor_material := none, insulation_type := none,
        cores := none, armoring := none, conductor_size_mm2 := none,
        temperature_rating_c := none, standards := none }
      c3Row = 0 :=
  (c3_weighted_score
    { voltage := none, conductor_material := none, insulation_type := none,
      cores := none, armoring := none, conductor_size_mm2 := none,
      temperature_rating_c := none, standards := none }
    c3Row).2 (by decide)

/-- C3 counterexample: with three unit-weight attributes specified and
two hits, the computed score is 66.67 (two-decimal rounding), not the
exact 200/3 the claim's formula states. -/
theorem c3_counterexample :
    compute_spec_match c3Attrs c3Row = 6667 / 100 ∧
    claimSpecScore c3Attrs c3Row = 200 / 3 ∧
    (6667 : ℚ) / 100 ≠ 200 / 3 := by
  have hv : matchSpec .voltage "11 kv".toList c3Row = true := by decide
  have hm : matchSpec .conductor_material "copper".toList c3Row = true := by decide
  have hi : matchSpec .insulation_type "pvc".toList c3Row = false := by decide
  have hsk : specifiedKeys c3Attrs =
      [.voltage, .conductor_material, .insulation_type] := by decide
  have hh1 : specHit c3Attrs c3Row SpecKey.voltage = true := by decide
  have hh2 : specHit c3Attrs c3Row SpecKey.conductor_material = true := by decide
  have hh3 : specHit c3Attrs c3Row SpecKey.insulation_type = false := by decide
  have hfold : specFold c3Attrs c3Row = (2, 3) := by
    simp only [specFold, SPEC_KEYS, List.foldl_cons, List.foldl_nil,
      c3Attrs, AttributeSet.get, hv, hm, hi]
    norm_num [SPEC_WEIGHTS]
  have hfloor : ⌊((200 : ℚ) / 3 * 10 ^ 2)⌋ = 6666 := by
    rw [Int.floor_eq_iff]
    constructor <;> push_cast <;> norm_num
  have hround : round2 ((200 : ℚ) / 3) = 6667 / 100 := by
    unfold round2 roundTo roundHE
    rw [hfloor]
    rw [if_neg (by push_cast; norm_num), if_pos (by push_cast; norm_num)]
    norm_num
  refine ⟨?_, ?_, by with_unfolding_all decide⟩
  · unfold compute_spec_match
    rw [hfold]
    norm_num
    exact hround
  · unfold claimSpecScore
    rw [hsk]
    rw [if_neg (by simp)]
    simp only [List.filter_cons, hh1, hh2, hh3, List.filter_nil,
      List.map_cons, List.map_nil, List.sum_cons, List.sum_nil,
      Bool.false_eq_true, if_false, if_true]
    norm_num [SPEC_WEIGHTS]


theorem validMatches_pos (ms : List (Option MatchCand)) :
    ∀ m ∈ validMatches ms, 0 < m.spec_match_percent := by
  intro m hm
  unfold validMatches at hm
  exact of_decide_eq_true (List.mem_filter.mp hm).2

theorem techSums_nonneg (pyexp : ℚ → ℚ) (hpos : ∀ x, 0 < pyexp x) :
    ∀ (l : List MatchCand) (i : ℕ), (∀ m ∈ l, 0 ≤ m.spec_match_percent) →
      0 ≤ (techSums pyexp l i).1 ∧ 0 ≤ (techSums pyexp l i).2 := by
  intro l
  induction l with
  | nil =>
    intro i _
    simp [techSums]
  | cons m rest ih =>
    intro i hall
    have h1 := ih (i + 1) (fun x hx => hall x (List.mem_cons_of_mem _ hx))
    have hw := hpos (-(3 / 10) * (i : ℚ))
    have hm := hall m (List.mem_cons_self _ _)
    constructor
    · simp only [techSums]
      have : 0 ≤ m.spec_match_percent * pyexp (-(3 / 10) * (i : ℚ)) :=
        mul_nonneg hm (le_of_lt hw)
      linarith [h1.1]
    · simp only [techSums]
      linarith [h1.2]

theorem techSums_pos (pyexp : ℚ → ℚ) (hpos : ∀ x, 0 < pyexp x)
    (l : List MatchCand) (i : ℕ) (hne : l ≠ [])
    (hall : ∀ m ∈ l, 0 < m.spec_match_percent) :
    0 < (techSums pyexp l i).1 ∧ 0 < (techSums pyexp l i).2 := by
  obtain ⟨m, rest, hm⟩ := List.exists_cons_of_ne_nil hne
  subst hm
  have hrest := techSums_nonneg pyexp hpos rest (i + 1)
    (fun x hx => le_of_lt (hall x (List.mem_cons_of_mem _ hx)))
  have hw := hpos (-(3 / 10) * (i : ℚ))
  have hmp := hall m (List.mem_cons_self _ _)
  constructor
  · simp only [techSums]
    have : 0 < m.spec_match_percent * pyexp (-(3 / 10) * (i : ℚ)) :=
      mul_pos hmp hw
    linarith [hrest.1]
  · simp only [techSums]
    linarith [hrest.2]

theorem techWeightedAvg_pos (pyexp : ℚ → ℚ) (hpos : ∀ x, 0 < pyexp x)
    (v : List MatchCand) (hne : v ≠ [])
    (hall : ∀ m ∈ v, 0 < m.spec_match_percent) :
    0 < techWeightedAvg pyexp v := by
  have htake : v.take 5 ≠ [] := by
    obtain ⟨m, rest, hm⟩ := List.exists_cons_of_ne_nil hne
    subst hm
    simp [List.take_cons]
  have hsum := techSums_pos pyexp hpos (v.take 5) 0 htake
    (fun m hm => hall m (List.mem_of_mem_take hm))
  unfold techWeightedAvg
  rw [if_pos hsum.2]
  exact div_pos hsum.1 hsum.2

theorem techWeightedAvg_nonneg (pyexp : ℚ → ℚ) (hpos : ∀ x, 0 < pyexp x)
    (v : List MatchCand) (hall : ∀ m ∈ v, 0 ≤ m.spec_match_percent) :
    0 ≤ techWeightedAvg pyexp v := by
  have hsum := techSums_nonneg pyexp hpos (v.take 5) 0
    (fun m hm => hall m (List.mem_of_mem_take hm))
  simp only [techWeightedAvg]
  split
  · exact div_nonneg hsum.1 hsum.2
  · exact le_refl 0

theorem diversityMultiplier_nonneg (v : List MatchCand) :
    0 ≤ diversityMultiplier v := by
  unfold diversityMultiplier
  have h0 : (0 : ℚ) ≤ (goodMatchCount v : ℚ) := by positivity
  apply le_min
  · linarith
  · norm_num

/-- C9: when at least one candidate has a positive match percentage but
none reaches 70, the diversity multiplier is 0.95 and the technical score
is strictly below the exponential-decay weighted average (a 5% penalty);
the multiplier exceeds 1 exactly when at least two candidates are at or
above 70, and is capped at 1.15.  Stated for any positive model of
`math.exp`. -/
theorem c9_diversity_penalty (pyexp : ℚ → ℚ) (hpos : ∀ x, 0 < pyexp x)
    (ms : List (Option MatchCand)) :
    (validMatches ms ≠ [] →
      (∀ m ∈ validMatches ms, m.spec_match_percent < 70) →
      goodMatchCount (validMatches ms) = 0 ∧
      diversityMultiplier (validMatches ms) = 19 / 20 ∧
      score_technical_match pyexp ms < techWeightedAvg pyexp (validMatches ms)) ∧
    (1 < diversityMultiplier (validMatches ms) ↔
      2 ≤ goodMatchCount (validMatches ms)) ∧
    diversityMultiplier (validMatches ms) ≤ 23 / 20 := by
  refine ⟨?_, ?_, min_le_right _ _⟩
  · intro hne hlt
    have hcount : goodMatchCount (validMatches ms) = 0 := by
      unfold goodMatchCount
      rw [List.length_eq_zero]
      rw [List.filter_eq_nil_iff]
      intro m hm
      simp only [decide_eq_true_eq]
      exact not_le.mpr (hlt m hm)
    have hmult : diversityMultiplier (validMatches ms) = 19 / 20 := by
      unfold diversityMultiplier
      rw [hcount]
      norm_num
    have hwa : 0 < techWeightedAvg pyexp (validMatches ms) :=
      techWeightedAvg_pos pyexp hpos _ hne (validMatches_pos ms)
    refine ⟨hcount, hmult, ?_⟩
    have hms : ¬ms.isEmpty := by
      intro h0
      rw [List.isEmpty_iff] at h0
      subst h0
      exact hne rfl
    unfold score_technical_match
    rw [if_neg hms, if_neg (by simpa using hne), hmult]
    calc min (techWeightedAvg pyexp (validMatches ms) * (19 / 20)) 100 ≤
        techWeightedAvg pyexp (validMatches ms) * (19 / 20) := min_le_left _ _
      _ < techWeightedAvg pyexp (validMatches ms) := by linarith
  · unfold diversityMultiplier
    rw [lt_min_iff]
    constructor
    · rintro ⟨h1, _⟩
      have : (1 : ℚ) < (goodMatchCount (validMatches ms) : ℚ) := by linarith
      exact_mod_cast this
    · intro h2
      have : (2 : ℚ) ≤ (goodMatchCount (validMatches ms) : ℚ) := by exact_mod_cast h2
      constructor
      · linarith
      · norm_num

theorem c9_diversity_penalty_witness :
    goodMatchCount (validMatches [some ⟨50, "P1", "cables"⟩]) = 0 ∧
    diversityMultiplier (validMatches [some ⟨50, "P1", "cables"⟩]) = 19 / 20 ∧
    score_technical_match (fun _ => 1) [some ⟨50, "P1", "cables"⟩] <
      techWeightedAvg (fun _ => 1) (validMatches [some ⟨50, "P1", "cables"⟩]) := by
  have h := c9_diversity_penalty (fun _ => 1) (fun _ => by norm_num)
    [some ⟨50, "P1", "cables"⟩]
  exact h.1 (by with_unfolding_all decide) (by with_unfolding_all decide)


theorem clampTop_bounds (x : ℚ) : 0 ≤ max 0 (min x 100) ∧ max 0 (min x 100) ≤ 100 :=
  ⟨le_max_left 0 _, max_le (by norm_num) (min_le_right x 100)⟩

theorem tech_score_bounds (pyexp : ℚ → ℚ) (hpos : ∀ x, 0 < pyexp x)
    (ms : List (Option MatchCand)) :
    0 ≤ score_technical_match pyexp ms ∧ score_technical_match pyexp ms ≤ 100 := by
  simp only [score_technical_match]
  split
  · norm_num
  · split
    · norm_num
    · constructor
      · apply le_min
        · apply mul_nonneg
          · exact techWeightedAvg_nonneg pyexp hpos _
              (fun m hm => le_of_lt (validMatches_pos ms m hm))
          · exact diversityMultiplier_nonneg _
        · norm_num
      · exact min_le_right _ _

theorem price_score_bounds (pyexp : ℚ → ℚ) (db : List CatalogRow)
    (price : ℚ) (ms : List (Option MatchCand)) :
    0 ≤ score_price_competitiveness pyexp db price ms ∧
      score_price_competitiveness pyexp db price ms ≤ 100 := by
  simp only [score_price_competitiveness]
  split
  · norm_num
  · exact clampTop_bounds _

theorem delivery_score_bounds (db : List CatalogRow)
    (parseDays : List Char → Option ℤ) (ms : List (Option MatchCand))
    (deadline : Option (List Char)) :
    0 ≤ score_delivery_capability db parseDays ms deadline ∧
      score_delivery_capability db parseDays ms deadline ≤ 100 := by
  simp only [score_delivery_capability]
  split
  · norm_num
  · exact clampTop_bounds _

theorem resolvedRows_subset (db : List CatalogRow) (ms : List (Option MatchCand)) :
    ∀ r ∈ resolvedRows db ms, r ∈ db := by
  intro r hr
  unfold resolvedRows at hr
  obtain ⟨m, _, hm⟩ := List.mem_filterMap.mp hr
  exact List.mem_of_find?_eq_some hm

theorem compliance_score_bounds (db : List CatalogRow)
    (ms : List (Option MatchCand))
    (hw : ∀ r ∈ db, 0 ≤ r.warranty_years) :
    0 ≤ score_compliance db ms ∧ score_compliance db ms ≤ 100 := by
  simp only [score_compliance]
  split
  · norm_num
  · split
    · norm_num
    · constructor
      · apply le_min
        · have htot : (0 : ℚ) ≤ ((resolvedRows db ms).length : ℚ) := by positivity
          have hbis : (0 : ℚ) ≤
              (((resolvedRows db ms).filter
                (fun r => lowerL r.bis_certified == "yes".toList)).length : ℚ) := by
            positivity
          have hstd : (0 : ℚ) ≤
              (((resolvedRows db ms).filter
                (fun r => stdKeywordAny (lowerL r.standards_compliance))).length : ℚ) := by
            positivity
          have hwsum : 0 ≤ ((resolvedRows db ms).map
              (fun r => min r.warranty_years 5)).sum := by
            apply List.sum_nonneg
            intro x hx
            obtain ⟨r, hr, hrx⟩ := List.mem_map.mp hx
            rw [← hrx]
            exact le_min (hw r (resolvedRows_subset db ms r hr)) (by norm_num)
          have t1 : (0:ℚ) ≤ (((resolvedRows db ms).filter
              (fun r => lowerL r.bis_certified == "yes".toList)).length : ℚ) /
              ((resolvedRows db ms).length : ℚ) * 40 := by positivity
          have t2 : (0:ℚ) ≤ (((resolvedRows db ms).filter
              (fun r => stdKeywordAny (lowerL r.standards_compliance))).length : ℚ) /
              ((resolvedRows db ms).length : ℚ) * 40 := by positivity
          have t3 : (0:ℚ) ≤ ((resolvedRows db ms).map
              (fun r => min r.warranty_years 5)).sum /
              ((resolvedRows db ms).length : ℚ) / 5 * 20 := by
            have := div_nonneg (div_nonneg hwsum htot) (by norm_num : (0:ℚ) ≤ 5)
            linarith
          linarith
        · norm_num
      · exact min_le_right _ _

theorem risk_score_bounds (db : List CatalogRow) (ms : List (Option MatchCand))
    (price : ℚ) :
    0 ≤ score_risk_assessment db ms price ∧
      score_risk_assessment db ms price ≤ 100 := by
  simp only [score_risk_assessment]
  split
  · norm_num
  · constructor
    · apply le_min
      · have h1 : (0:ℚ) ≤ min ((ms.length : ℚ) * 20) 50 :=
          le_min (by positivity) (by norm_num)
        have h2 : (0:ℚ) ≤ min
            (((((ms.filterMap id).map (fun m => m.category)).dedup).length : ℚ) * 15)
            30 := le_min (by positivity) (by norm_num)
        have h3 : (0:ℚ) ≤ max (20 - ((((resolvedRows db ms).filter
            (fun r => decide (500 < r.min_order_qty))).length : ℚ)) * 5) 0 :=
          le_max_right _ _
        linarith
      · norm_num
    · exact min_le_right _ _

theorem roundHE_le {x : ℚ} {z : ℤ} (h : x ≤ (z : ℚ)) : roundHE x ≤ z := by
  have hn : ⌊x⌋ ≤ z := by
    have := Int.floor_le_floor h
    simpa using this
  simp only [roundHE]
  split
  · exact hn
  · rename_i hf
    push_neg at hf
    have hx : (⌊x⌋ : ℚ) < x := by linarith [Int.sub_one_lt_floor x]
    have : (⌊x⌋ : ℚ) < (z : ℚ) := lt_of_lt_of_le hx h
    have hz : ⌊x⌋ < z := by exact_mod_cast this
    split
    · omega
    · split
      · omega
      · omega

theorem le_roundHE {x : ℚ} {z : ℤ} (h : (z : ℚ) ≤ x) : z ≤ roundHE x := by
  have hn : z ≤ ⌊x⌋ := Int.le_floor.mpr h
  simp only [roundHE]
  split
  · exact hn
  · split
    · omega
    · split
      · omega
      · omega

theorem roundTo_bounds (k : ℕ) (x : ℚ) (a b : ℤ)
    (h1 : (a : ℚ) ≤ x) (h2 : x ≤ (b : ℚ)) :
    (a : ℚ) ≤ roundTo k x ∧ roundTo k x ≤ (b : ℚ) := by
  have hp : (0 : ℚ) < 10 ^ k := by positivity
  constructor
  · rw [roundTo, le_div_iff₀ hp]
    have h3 : (a * 10 ^ k : ℤ) ≤ roundHE (x * 10 ^ k) := by
      apply le_roundHE
      push_cast
      nlinarith
    calc (a : ℚ) * 10 ^ k = ((a * 10 ^ k : ℤ) : ℚ) := by push_cast; ring
      _ ≤ (roundHE (x * 10 ^ k) : ℚ) := by exact_mod_cast h3
  · rw [roundTo, div_le_iff₀ hp]
    have h3 : roundHE (x * 10 ^ k) ≤ (b * 10 ^ k : ℤ) := by
      apply roundHE_le
      push_cast
      nlinarith
    calc (roundHE (x * 10 ^ k) : ℚ) ≤ ((b * 10 ^ k : ℤ) : ℚ) := by exact_mod_cast h3
      _ = (b : ℚ) * 10 ^ k := by push_cast; ring

theorem round2_bounds_0_100 {x : ℚ} (h1 : 0 ≤ x) (h2 : x ≤ 100) :
    0 ≤ round2 x ∧ round2 x ≤ 100 := by
  have := roundTo_bounds 2 x 0 100 (by exact_mod_cast h1) (by exact_mod_cast h2)
  constructor
  · exact_mod_cast this.1
  · exact_mod_cast this.2


/-- C8: every component score of `calculate_final_score` lies in
`[0, 100]`, the weighted composite lies in `[0, 100]`, and the normalized
score lies in `[0, 1]` — for every candidate list, estimated price and
optional deadline, every positive model of `math.exp`, and every catalog
whose warranty years are nonnegative. -/
theorem c8_score_bounds (pyexp : ℚ → ℚ) (parseDays : List Char → Option ℤ)
    (db : List CatalogRow) (ms : List (Option MatchCand)) (price : ℚ)
    (deadline : Option (List Char))
    (hpos : ∀ x, 0 < pyexp x)
    (hw : ∀ r ∈ db, 0 ≤ r.warranty_years) :
    (0 ≤ (calculate_final_score pyexp parseDays db ms price deadline).technical_match ∧
      (calculate_final_score pyexp parseDays db ms price deadline).technical_match ≤ 100) ∧
    (0 ≤ (calculate_final_score pyexp parseDays db ms price deadline).price_competitiveness ∧
      (calculate_final_score pyexp parseDays db ms price deadline).price_competitiveness ≤ 100) ∧
    (0 ≤ (calculate_final_score pyexp parseDays db ms price deadline).delivery_capability ∧
      (calculate_final_score pyexp parseDays db ms price deadline).delivery_capability ≤ 100) ∧
    (0 ≤ (calculate_final_score pyexp parseDays db ms price deadline).compliance ∧
      (calculate_final_score pyexp parseDays db ms price deadline).compliance ≤ 100) ∧
    (0 ≤ (calculate_final_score pyexp parseDays db ms price deadline).risk_assessment ∧
      (calculate_final_score pyexp parseDays db ms price deadline).risk_assessment ≤ 100) ∧
    (0 ≤ (calculate_final_score pyexp parseDays db ms price deadline).final_score ∧
      (calculate_final_score pyexp parseDays db ms price deadline).final_score ≤ 100) ∧
    (0 ≤ (calculate_final_score pyexp parseDays db ms price deadline).normalized_score ∧
      (calculate_final_score pyexp parseDays db ms price deadline).normalized_score ≤ 1) := by
  have ht := tech_score_bounds pyexp hpos ms
  have hp := price_score_bounds pyexp db price ms
  have hd := delivery_score_bounds db parseDays ms deadline
  have hc := compliance_score_bounds db ms hw
  have hr := risk_score_bounds db ms price
  have hfinal :
      0 ≤ score_technical_match pyexp ms * W_TECH +
        score_price_competitiveness pyexp db price ms * W_PRICE +
        score_delivery_capability db parseDays ms deadline * W_DELIVERY +
        score_compliance db ms * W_COMPLIANCE +
        score_risk_assessment db ms price * W_RISK ∧
      score_technical_match pyexp ms * W_TECH +
        score_price_competitiveness pyexp db price ms * W_PRICE +
        score_delivery_capability db parseDays ms deadline * W_DELIVERY +
        score_compliance db ms * W_COMPLIANCE +
        score_risk_assessment db ms price * W_RISK ≤ 100 := by
    unfold W_TECH W_PRICE W_DELIVERY W_COMPLIANCE W_RISK
    constructor
    · nlinarith [ht.1, hp.1, hd.1, hc.1, hr.1]
    · nlinarith [ht.2, hp.2, hd.2, hc.2, hr.2]
  have hnorm :
      (0 : ℚ) ≤ (score_technical_match pyexp ms * W_TECH +
        score_price_competitiveness pyexp db price ms * W_PRICE +
        score_delivery_capability db parseDays ms deadline * W_DELIVERY +
        score_compliance db ms * W_COMPLIANCE +
        score_risk_assessment db ms price * W_RISK) / 100 ∧
      (score_technical_match pyexp ms * W_TECH +
        score_price_competitiveness pyexp db price ms * W_PRICE +
        score_delivery_capability db parseDays ms deadline * W_DELIVERY +
        score_compliance db ms * W_COMPLIANCE +
        score_risk_assessment db ms price * W_RISK) / 100 ≤ 1 := by
    constructor
    · exact div_nonneg hfinal.1 (by norm_num)
    · rw [div_le_one (by norm_num : (0:ℚ) < 100)]
      exact hfinal.2
  simp only [calculate_final_score]
  refine ⟨round2_bounds_0_100 ht.1 ht.2, round2_bounds_0_100 hp.1 hp.2,
    round2_bounds_0_100 hd.1 hd.2, round2_bounds_0_100 hc.1 hc.2,
    round2_bounds_0_100 hr.1 hr.2, round2_bounds_0_100 hfinal.1 hfinal.2, ?_⟩
  have hb := roundTo_bounds 4 _ 0 1 (by exact_mod_cast hnorm.1) (by exact_mod_cast hnorm.2)
  constructor
  · exact_mod_cast hb.1
  · exact_mod_cast hb.2

theorem c8_score_bounds_witness :
    (0 ≤ (calculate_final_score (fun _ => 1) (fun _ => none) [] [] 0 none).final_score ∧
      (calculate_final_score (fun _ => 1) (fun _ => none) [] [] 0 none).final_score ≤ 100) ∧
    (0 ≤ (calculate_final_score (fun _ => 1) (fun _ => none) [] [] 0 none).normalized_score ∧
      (calculate_final_score (fun _ => 1) (fun _ => none) [] [] 0 none).normalized_score ≤ 1) := by
  have h := c8_score_bounds (fun _ => 1) (fun _ => none) [] [] 0 none
    (fun _ => by norm_num) (fun r hr => absurd hr (List.not_mem_nil r))
  exact ⟨h.2.2.2.2.2.1, h.2.2.2.2.2.2⟩

theorem c4_exact_size_witness :
    matchSpec .conductor_size_mm2 "185".toList
      { voltage_rating := none, conductor_material := none,
        insulation_type := none, number_of_cores := none, armoring := none,
        conductor_size_mm2 := some "70".toList,
        temperature_rating_c := none, standards_compliance := none } = false ∧
    matchSpec .conductor_size_mm2 "185".toList
      { voltage_rating := none, conductor_material := none,
        insulation_type := none, number_of_cores := none, armoring := none,
        conductor_size_mm2 := some "185".toList,
        temperature_rating_c := none, standards_compliance := none } = true := by
  constructor
  · have h := c4_exact_size "185".toList "70".toList
      { voltage_rating := none, conductor_material := none,
        insulation_type := none, number_of_cores := none, armoring := none,
        conductor_size_mm2 := some "70".toList,
        temperature_rating_c := none, standards_compliance := none }
      185 70 rfl (by with_unfolding_all decide) (by with_unfolding_all decide)
    exact Bool.eq_false_iff.mpr
      (fun hc => absurd (h.1.mp hc) (by with_unfolding_all decide))
  · have h := c4_exact_size "185".toList "185".toList
      { voltage_rating := none, conductor_material := none,
        insulation_type := none, number_of_cores := none, armoring := none,
        conductor_size_mm2 := some "185".toList,
        temperature_rating_c := none, standards_compliance := none }
      185 185 rfl (by with_unfolding_all decide) (by with_unfolding_all decide)
    exact h.1.mpr rfl

end RfpSystem
